import Mathlib

/-! # Verification development for `llvm-interface/llvm_wrapper.cc`

A shallow embedding of the entry points of `llvm_wrapper.cc` (the C-callable
glue between the GNAT front end and LLVM) together with theorems about the
metadata layout, the exact floating-point helpers, the address-offset folding
query and the optimisation-pipeline policy table.

Conventions of the embedding.

* C `int` is `Int`, C `unsigned` is a `Nat` reduced modulo `2^32`, `uint64_t`
  is `Fin (2^64)`.  Signed overflow, out-of-bounds array accesses and failed
  library assertions are undefined behaviour in the source and are the `none`
  result of the embedding.
* A `Metadata *` is a value of the inductive type `Metadata`; the null pointer
  is the constructor `Metadata.null`.
-/

namespace LLVMWrapper

/-! ## Machine integers -/

/-- Largest value of the C type `int` (32 bits). -/
def INT_MAX : Int := 2147483647

/-- Smallest value of the C type `int` (32 bits). -/
def INT_MIN : Int := -2147483648

/-- Number of values of the C type `unsigned` (32 bits). -/
def UINT_SIZE : Nat := 4294967296

/-- Number of values of `size_t` and of `uint64_t`. -/
def UINT64_SIZE : Nat := 18446744073709551616

/-- The C type `uint64_t`. -/
abbrev uint64_t := Fin 18446744073709551616

/-- Conversion of an `int` to `unsigned`: reduction modulo `2^32`. -/
def toUnsigned (x : Int) : Nat := (x % (UINT_SIZE : Int)).toNat

/-- Conversion of an `int` to `size_t`: reduction modulo `2^64`. -/
def toSizeT (x : Int) : Nat := (x % (UINT64_SIZE : Int)).toNat

/-- An `int` result is defined only when it is representable. -/
def inIntRange (x : Int) : Bool := decide (INT_MIN ≤ x) && decide (x ≤ INT_MAX)

/-! ## Metadata model -/

/-- Value of a `Metadata *`: the null pointer, a string leaf, a constant leaf
wrapping a `ConstantInt` of the given bit width, or a node with its operands. -/
inductive Metadata where
  | null : Metadata
  | MDString (s : String) : Metadata
  | ConstantAsMetadata (bits : Nat) (value : Nat) : Metadata
  | MDNode (ops : List Metadata) : Metadata

/-- Dynamic kind test `isa<MDNode>` on a metadata pointer. -/
def Metadata.isMDNode : Metadata → Bool
  | Metadata.MDNode _ => true
  | _ => false

/-- The call `MDBuilder::createString (name)`. -/
def createString (name : String) : Metadata := Metadata.MDString name

/-- The call `MDBuilder::createConstant (ConstantInt::get (Int64, v))` for a
`uint64_t` argument `v`. -/
def createConstantInt64 (v : uint64_t) : Metadata :=
  Metadata.ConstantAsMetadata 64 v.val

/-- The call `MDNode::get (ctx, Ops)`. -/
def MDNode_get (Ops : List Metadata) : Metadata := Metadata.MDNode Ops

/-- The assignment `Ops[idx] = v` on a vector; writing past the end is undefined. -/
def storeOp (Ops : List Metadata) (idx : Nat) (v : Metadata) : Option (List Metadata) :=
  if idx < Ops.length then some (Ops.set idx v) else none

/-- Body of the `for` loop of `Create_TBAA_Struct_Type_Node`, run for the
`remaining` values of the `unsigned` counter starting at `i`.  The subscripts
`3 + i * 3 + j` are computed in `unsigned` arithmetic. -/
def Create_TBAA_Struct_Type_Node_loop (fields : List Metadata)
    (offsets sizes : List uint64_t) :
    Nat → Nat → List Metadata → Option (List Metadata)
  | 0, _, Ops => some Ops
  | remaining + 1, i, Ops =>
    match fields[i]?, offsets[i]?, sizes[i]? with
    | some f, some o, some s =>
      match storeOp Ops ((3 + i * 3) % UINT_SIZE) f with
      | none => none
      | some Ops1 =>
        match storeOp Ops1 ((3 + i * 3 + 1) % UINT_SIZE) (createConstantInt64 o) with
        | none => none
        | some Ops2 =>
          match storeOp Ops2 ((3 + i * 3 + 2) % UINT_SIZE) (createConstantInt64 s) with
          | none => none
          | some Ops3 =>
            Create_TBAA_Struct_Type_Node_loop fields offsets sizes remaining (i + 1) Ops3
    | _, _, _ => none

/-- The function `Create_TBAA_Struct_Type_Node`.  The vector `Ops` is created with
`num_fields * 3 + 3` null entries (an `int` expression converted to `size_t`),
entries 0, 1, 2 receive the parent, the size constant and the name string, and
the loop runs while the `unsigned` counter is below `num_fields` converted to
`unsigned`. -/
def Create_TBAA_Struct_Type_Node (name : String) (size : uint64_t) (num_fields : Int)
    (parent : Metadata) (fields : List Metadata) (offsets sizes : List uint64_t) :
    Option Metadata :=
  if inIntRange (num_fields * 3) && inIntRange (num_fields * 3 + 3) then
    let Ops := List.replicate (toSizeT (num_fields * 3 + 3)) Metadata.null
    match storeOp Ops 0 parent with
    | none => none
    | some Ops0 =>
      match storeOp Ops0 1 (createConstantInt64 size) with
      | none => none
      | some Ops1 =>
        match storeOp Ops1 2 (createString name) with
        | none => none
        | some Ops2 =>
          match Create_TBAA_Struct_Type_Node_loop fields offsets sizes
              (toUnsigned num_fields) 0 Ops2 with
          | none => none
          | some Ops3 => some (MDNode_get Ops3)
  else none

/-- The function `Create_TBAA_Scalar_Type_Node`. -/
def Create_TBAA_Scalar_Type_Node (name : String) (size : uint64_t) (parent : Metadata) :
    Metadata :=
  MDNode_get [parent, createConstantInt64 size, createString name]

/-- The function `Get_Metadata_Num_Operands`; the result type is `unsigned`.  The
argument has static type `MDNode *`. -/
def Get_Metadata_Num_Operands (MD : Metadata) : Option Nat :=
  match MD with
  | Metadata.MDNode ops => some (ops.length % UINT_SIZE)
  | _ => none

/-- The call `MD->getOperand (i)`; an index past the operands is undefined. -/
def getOperand (MD : Metadata) (i : Nat) : Option Metadata :=
  match MD with
  | Metadata.MDNode ops => ops[i]?
  | _ => none

/-- The function `Get_Metadata_Operand_Constant_Value`:
`mdconst::extract<ConstantInt> (MD->getOperand (i))->getZExtValue ()`.  The
checked cast is defined only on a constant-integer leaf. -/
def Get_Metadata_Operand_Constant_Value (MD : Metadata) (i : Nat) : Option Nat :=
  match getOperand MD i with
  | some (Metadata.ConstantAsMetadata _ v) => some v
  | _ => none

/-- The function `Get_Metadata_Operand`: `dyn_cast<MDNode> (MD->getOperand (i))`.
The outer `Option` is definedness (`dyn_cast` requires a non-null argument); the
value `Metadata.null` is the absent result. -/
def Get_Metadata_Operand (MD : Metadata) (i : Nat) : Option Metadata :=
  match getOperand MD i with
  | some (Metadata.MDNode ops) => some (Metadata.MDNode ops)
  | some (Metadata.MDString _) => some Metadata.null
  | some (Metadata.ConstantAsMetadata _ _) => some Metadata.null
  | _ => none

/-- The three operands that one field contributes to a struct-type node. -/
def fieldOperands (f : Metadata × uint64_t × uint64_t) : List Metadata :=
  [f.1, createConstantInt64 f.2.1, createConstantInt64 f.2.2]

/-- The operand list `[parent, size, name, t_0, o_0, s_0, t_1, ...]`. -/
def structOperands (name : String) (size : uint64_t) (parent : Metadata)
    (fs : List (Metadata × uint64_t × uint64_t)) : List Metadata :=
  parent :: createConstantInt64 size :: createString name :: fs.flatMap fieldOperands

/-- The call of `Create_TBAA_Struct_Type_Node` on a list of `k` fields: the three
parallel arrays are the components of the list and `num_fields` is `k`. -/
def createStructNode (name : String) (size : uint64_t) (parent : Metadata)
    (fs : List (Metadata × uint64_t × uint64_t)) : Option Metadata :=
  Create_TBAA_Struct_Type_Node name size (fs.length : Int) parent
    (fs.map (fun f => f.1)) (fs.map (fun f => f.2.1)) (fs.map (fun f => f.2.2))

/-! ## Optimisation pipeline policy -/

/-- The inliner passes that `LLVM_Optimize_Module` can install. -/
inductive Pass where
  | FunctionInliningPass (OptLevel SizeOptLevel : Nat) (DisableInlineHotCallSite : Bool) : Pass
  | AlwaysInlinerLegacyPass : Pass
  deriving DecidableEq, Repr

/-- The call `createFunctionInliningPass (OptLevel, SizeOptLevel, flag)`; the two
levels are `unsigned` parameters receiving `int` arguments. -/
def createFunctionInliningPass (OptLevel SizeOptLevel : Int)
    (DisableInlineHotCallSite : Bool) : Pass :=
  Pass.FunctionInliningPass (toUnsigned OptLevel) (toUnsigned SizeOptLevel)
    DisableInlineHotCallSite

/-- The call `createAlwaysInlinerLegacyPass ()`. -/
def createAlwaysInlinerLegacyPass : Pass := Pass.AlwaysInlinerLegacyPass

/-- The fields of `PassManagerBuilder` that `LLVM_Optimize_Module` assigns. -/
structure PassManagerBuilder where
  OptLevel : Nat
  SizeLevel : Nat
  Inliner : Option Pass
  DisableUnrollLoops : Bool
  LoopsInterleaved : Bool
  LoopVectorize : Bool
  SLPVectorize : Bool
  MergeFunctions : Bool
  PrepareForThinLTO : Bool
  PrepareForLTO : Bool
  RerollLoops : Bool
  deriving DecidableEq, Repr

/-- The builder configured by `LLVM_Optimize_Module` (the assignments to `Builder`
that precede `TM->adjustPassManager (Builder)`).  `Builder.Inliner` keeps the
null default of a fresh `PassManagerBuilder` when neither branch assigns it. -/
def LLVM_Optimize_Module (Code_Opt_Level Size_Opt_Level : Int)
    (No_Inlining No_Unroll_Loops No_Loop_Vectorization No_SLP_Vectorization
      MergeFunctions PrepareForThinLTO PrepareForLTO RerollLoops : Bool) :
    PassManagerBuilder :=
  { OptLevel := toUnsigned Code_Opt_Level
    SizeLevel := toUnsigned Size_Opt_Level
    Inliner :=
      if !No_Inlining && decide (Code_Opt_Level > 1) then
        some (createFunctionInliningPass Code_Opt_Level Size_Opt_Level false)
      else if !No_Inlining then
        some createAlwaysInlinerLegacyPass
      else none
    DisableUnrollLoops := decide (Code_Opt_Level = 0) || No_Unroll_Loops
    LoopsInterleaved := decide (Code_Opt_Level ≠ 0) && !No_Unroll_Loops
    LoopVectorize :=
      if No_Loop_Vectorization then false
      else decide (Code_Opt_Level > 1) && decide (Size_Opt_Level < 2)
    SLPVectorize :=
      if No_SLP_Vectorization then false
      else decide (Code_Opt_Level > 1) && decide (Size_Opt_Level < 2)
    MergeFunctions := decide (Code_Opt_Level ≠ 0) && MergeFunctions
    PrepareForThinLTO := decide (Code_Opt_Level ≠ 0) && PrepareForThinLTO
    PrepareForLTO := decide (Code_Opt_Level ≠ 0) && PrepareForLTO
    RerollLoops := decide (Code_Opt_Level ≠ 0) && RerollLoops }

/-- Classification of the selected inliner. -/
inductive InlinerKind where
  | costDriven : InlinerKind
  | alwaysInlineOnly : InlinerKind
  | noInliner : InlinerKind
  deriving DecidableEq, Repr

/-- The kind of the pass stored in `Builder.Inliner`. -/
def inlinerKind : Option Pass → InlinerKind
  | some (Pass.FunctionInliningPass _ _ _) => InlinerKind.costDriven
  | some Pass.AlwaysInlinerLegacyPass => InlinerKind.alwaysInlineOnly
  | none => InlinerKind.noInliner


/-! ## Arbitrary-precision integers (`llvm::APInt`) -/

/-- An `APInt`: a bit width and the unsigned value of its bits. -/
structure APInt where
  BitWidth : Nat
  val : Nat
  deriving DecidableEq, Repr

/-- The constructor `APInt (numBits, val)` for a `uint64_t` value: the value is
zero-extended or truncated to `numBits` bits. -/
def APInt.ofUInt64 (numBits : Nat) (v : uint64_t) : APInt :=
  { BitWidth := numBits, val := v.val % 2 ^ numBits }

/-- The value of an `APInt` read as a two's-complement signed number. -/
def APInt.getSExtValue (a : APInt) : Int :=
  if a.val < 2 ^ (a.BitWidth - 1) then (a.val : Int) else (a.val : Int) - 2 ^ a.BitWidth

/-- Addition `a + b` (operator `+=`), wrapping at the width of `a`. -/
def APInt.add (a b : APInt) : APInt :=
  { BitWidth := a.BitWidth, val := (a.val + b.val) % 2 ^ a.BitWidth }

/-- Multiplication `a * b`, wrapping at the width of `a`. -/
def APInt.mul (a b : APInt) : APInt :=
  { BitWidth := a.BitWidth, val := (a.val * b.val) % 2 ^ a.BitWidth }

/-- The method `sextOrTrunc (width)`: sign extension to a larger width, truncation
to a smaller one. -/
def APInt.sextOrTrunc (a : APInt) (width : Nat) : APInt :=
  if a.BitWidth < width then
    { BitWidth := width
      val := if a.val < 2 ^ (a.BitWidth - 1) then a.val
             else a.val + (2 ^ width - 2 ^ a.BitWidth) }
  else if width < a.BitWidth then
    { BitWidth := width, val := a.val % 2 ^ width }
  else a

/-- The method `isIntN (N)`: the unsigned value needs at most `N` bits. -/
def APInt.isIntN (a : APInt) (N : Nat) : Bool := decide (a.val < 2 ^ N)

/-- The method `getZExtValue ()`. -/
def APInt.getZExtValue (a : APInt) : Nat := a.val

/-- The method `isZero ()` of a `ConstantInt`. -/
def APInt.isZero (a : APInt) : Bool := decide (a.val = 0)

/-! ## Address computations and the constant-offset query -/

/-- An index operand of an address computation: `dyn_cast<ConstantInt>` succeeds
exactly on the first constructor. -/
inductive IndexOperand where
  | ConstantInt (value : APInt) : IndexOperand
  | NonConstant : IndexOperand
  deriving DecidableEq, Repr

/-- One position of the `gep_type_iterator`: the index operand, the struct type
being indexed (`getStructTypeOrNull`) and the type stepped over
(`getIndexedType`). -/
structure GEPStep (Ty : Type) where
  operand : IndexOperand
  structTy : Option Ty
  indexedTy : Ty

/-- A `Value *`: an address computation (`GEPOperator`) with its type and index
chain, or any other value with its type. -/
inductive Value (Ty : Type) where
  | GEPOperator (ty : Ty) (steps : List (GEPStep Ty)) : Value Ty
  | Other (ty : Ty) : Value Ty

/-- The method `getType ()`. -/
def Value.getType {Ty : Type} : Value Ty → Ty
  | Value.GEPOperator ty _ => ty
  | Value.Other ty => ty

/-- The layout queries the wrapper makes on a `DataLayout`: the allocation size
of a type and the byte offset of a struct member
(`getStructLayout (STy)->getElementOffset (idx)`), both `uint64_t`. -/
structure DataLayout (Ty : Type) where
  getTypeAllocSize : Ty → uint64_t
  getElementOffset : Ty → Nat → uint64_t

/-- The method `GEPOperator::accumulateConstantOffset (DL, Offset)`: the Boolean
result and the final content of the by-reference accumulator.  A non-constant
index stops the walk with `false`; a zero index is skipped; a struct index adds the
member offset; any other index is sign-extended or truncated to the accumulator
width and multiplied by the allocation size of the indexed type. -/
def accumulateConstantOffset {Ty : Type} (DL : DataLayout Ty) :
    List (GEPStep Ty) → APInt → Bool × APInt
  | [], Offset => (true, Offset)
  | s :: rest, Offset =>
    match s.operand with
    | IndexOperand.NonConstant => (false, Offset)
    | IndexOperand.ConstantInt OpC =>
      if OpC.isZero then accumulateConstantOffset DL rest Offset
      else
        match s.structTy with
        | some STy =>
          let ElementIdx := OpC.getZExtValue % UINT_SIZE
          accumulateConstantOffset DL rest
            (Offset.add (APInt.ofUInt64 Offset.BitWidth (DL.getElementOffset STy ElementIdx)))
        | none =>
          let Index := OpC.sextOrTrunc Offset.BitWidth
          accumulateConstantOffset DL rest
            (Offset.add (Index.mul
              (APInt.ofUInt64 Offset.BitWidth (DL.getTypeAllocSize s.indexedTy))))

/-- Width of the accumulator created by `Get_GEP_Constant_Offset`:
`dl.getTypeAllocSize (GEP->getType ()) * 8`, a `uint64_t` product passed to an
`unsigned` parameter. -/
def offsetBitWidth {Ty : Type} (dl : DataLayout Ty) (GEP : Value Ty) : Nat :=
  ((dl.getTypeAllocSize GEP.getType).val * 8) % UINT64_SIZE % UINT_SIZE

/-- The function `Get_GEP_Constant_Offset`.  The argument `result` is the content
of the output location before the call; the function returns its Boolean result
together with the content of the output location after the call. -/
def Get_GEP_Constant_Offset {Ty : Type} (GEP : Value Ty) (dl : DataLayout Ty)
    (result : Nat) : Bool × Nat :=
  let Offset : APInt := { BitWidth := offsetBitWidth dl GEP, val := 0 }
  match GEP with
  | Value.Other _ => (false, result)
  | Value.GEPOperator _ steps =>
    match accumulateConstantOffset dl steps Offset with
    | (false, _) => (false, result)
    | (true, Offset1) =>
      if Offset1.isIntN 64 then (true, Offset1.getZExtValue % UINT64_SIZE)
      else (false, result)

/-- Every index of the chain is a compile-time constant. -/
def allConstant {Ty : Type} : List (GEPStep Ty) → Bool
  | [] => true
  | s :: rest =>
    match s.operand with
    | IndexOperand.ConstantInt _ => allConstant rest
    | IndexOperand.NonConstant => false

/-- Typing of an index chain as the IR verifier requires it: every constant
holds a value of its width, and a struct index is an `i32` constant. -/
def wellTypedChain {Ty : Type} : List (GEPStep Ty) → Bool
  | [] => true
  | s :: rest =>
    (match s.operand with
     | IndexOperand.ConstantInt c =>
       decide (c.val < 2 ^ c.BitWidth) && decide (0 < c.BitWidth)
         && (s.structTy.isNone || decide (c.BitWidth = 32))
     | IndexOperand.NonConstant => true)
    && wellTypedChain rest

/-- Layout arithmetic of the specification: the exact byte offset of a chain of
constant indices, the sum of the member offset for each struct index and of
`index * element size` for each other index (the index read as a signed
number).  Defined as 0 on a non-constant index. -/
def layoutOffset {Ty : Type} (DL : DataLayout Ty) : List (GEPStep Ty) → Int
  | [] => 0
  | s :: rest =>
    (match s.operand with
     | IndexOperand.NonConstant => 0
     | IndexOperand.ConstantInt c =>
       match s.structTy with
       | some STy => ((DL.getElementOffset STy c.val).val : Int)
       | none => c.getSExtValue * ((DL.getTypeAllocSize s.indexedTy).val : Int))
    + layoutOffset DL rest

/-- The chain is foldable in the sense of the code: the value is an address
computation, all its indices are constants, and the layout offset reduced modulo
`2^W` (`W` the accumulator width) needs at most 64 bits. -/
def foldable {Ty : Type} (dl : DataLayout Ty) (GEP : Value Ty) : Bool :=
  match GEP with
  | Value.Other _ => false
  | Value.GEPOperator _ steps =>
    allConstant steps
      && decide (layoutOffset dl steps % (2 : Int) ^ offsetBitWidth dl GEP < 2 ^ 64)

/-- The layout offset of the chain of a value reduced modulo `2^W`. -/
def wrappedOffset {Ty : Type} (dl : DataLayout Ty) (GEP : Value Ty) : Nat :=
  match GEP with
  | Value.Other _ => 0
  | Value.GEPOperator _ steps =>
    (layoutOffset dl steps % (2 : Int) ^ offsetBitWidth dl GEP).toNat

/-- The index chain of a value (empty for a value that is no address computation). -/
def Value.steps {Ty : Type} : Value Ty → List (GEPStep Ty)
  | Value.GEPOperator _ steps => steps
  | Value.Other _ => []

/-- A small universe of types for concrete address computations: 32- and 64-bit
integers, a pointer, and a 16-byte struct of two 64-bit members. -/
inductive SampleTy where
  | i32 : SampleTy
  | i64 : SampleTy
  | ptr : SampleTy
  | pair : SampleTy
  deriving DecidableEq, Repr

/-- The layout of `SampleTy` on a target with 64-bit pointers. -/
def sampleLayout : DataLayout SampleTy where
  getTypeAllocSize := fun t =>
    match t with
    | SampleTy.i32 => 4
    | SampleTy.i64 => 8
    | SampleTy.ptr => 8
    | SampleTy.pair => 16
  getElementOffset := fun _ idx => if idx = 0 then 0 else 8

/-- The address computation `getelementptr i32, ptr p, i64 -1`. -/
def gepMinusOne : Value SampleTy :=
  Value.GEPOperator SampleTy.ptr
    [{ operand := IndexOperand.ConstantInt { BitWidth := 64, val := 18446744073709551615 }
       structTy := none, indexedTy := SampleTy.i32 }]

/-- The address computation `getelementptr i64, ptr p, i64 4611686018427387904`
(index `2^62`). -/
def gepHugeIndex : Value SampleTy :=
  Value.GEPOperator SampleTy.ptr
    [{ operand := IndexOperand.ConstantInt { BitWidth := 64, val := 4611686018427387904 }
       structTy := none, indexedTy := SampleTy.i64 }]

/-- The address computation `getelementptr pair, ptr p, i64 2305843009213693952`
(index `2^61` over 16-byte elements). -/
def gepHugePairIndex : Value SampleTy :=
  Value.GEPOperator SampleTy.ptr
    [{ operand := IndexOperand.ConstantInt { BitWidth := 64, val := 2305843009213693952 }
       structTy := none, indexedTy := SampleTy.pair }]

/-- The address computation `getelementptr pair, ptr p, i64 3, i32 1`: element 3
of an array of pairs, then member 1. -/
def gepFieldOfElement : Value SampleTy :=
  Value.GEPOperator SampleTy.ptr
    [{ operand := IndexOperand.ConstantInt { BitWidth := 64, val := 3 }
       structTy := none, indexedTy := SampleTy.pair },
     { operand := IndexOperand.ConstantInt { BitWidth := 32, val := 1 }
       structTy := some SampleTy.pair, indexedTy := SampleTy.i64 }]

/-! ## Software floating point (`llvm::APFloat` on the IEEE-style formats)

The wrapper calls `convertFromAPInt`, `scalbn`, `next` and `multiply`.  They are
embedded on the representation sign / exponent / significand / category of
`IEEEFloat`; the significand word array is the natural number it denotes and the
exponent is an unbounded integer.  Status flags are results the wrapper
discards and are not computed.  The algorithms are those of the library releases
the file builds against (it includes `llvm/Support/TargetRegistry.h`). -/

/-- A floating-point format (`llvm::fltSemantics`). -/
structure fltSemantics where
  maxExponent : Int
  minExponent : Int
  precision : Nat
  sizeInBits : Nat
  deriving DecidableEq, Repr

/-- The format of the IR type `half`. -/
def semIEEEhalf : fltSemantics :=
  { maxExponent := 15, minExponent := -14, precision := 11, sizeInBits := 16 }

/-- The format of the IR type `double`. -/
def semIEEEdouble : fltSemantics :=
  { maxExponent := 1023, minExponent := -1022, precision := 53, sizeInBits := 64 }

/-- The format of the IR type `fp128`. -/
def semIEEEquad : fltSemantics :=
  { maxExponent := 16383, minExponent := -16382, precision := 113, sizeInBits := 128 }

/-- The format of the IR type `x86_fp80`. -/
def semX87DoubleExtended : fltSemantics :=
  { maxExponent := 16383, minExponent := -16382, precision := 64, sizeInBits := 80 }

/-- The shape shared by the formats above: at least two significand bits, a
minimum exponent that is not positive and a maximum exponent that is positive. -/
def fltSemantics.valid (sem : fltSemantics) : Bool :=
  decide (2 ≤ sem.precision) && decide (sem.minExponent ≤ 0) && decide (1 ≤ sem.maxExponent)

/-- Category of a value (`fltCategory`). -/
inductive fltCategory where
  | fcInfinity : fltCategory
  | fcNaN : fltCategory
  | fcNormal : fltCategory
  | fcZero : fltCategory
  deriving DecidableEq, Repr

/-- Rounding modes (`roundingMode`). -/
inductive roundingMode where
  | rmNearestTiesToEven : roundingMode
  | rmTowardPositive : roundingMode
  | rmTowardNegative : roundingMode
  | rmTowardZero : roundingMode
  | rmNearestTiesToAway : roundingMode
  deriving DecidableEq, Repr

/-- What a truncation dropped (`lostFraction`). -/
inductive lostFraction where
  | lfExactlyZero : lostFraction
  | lfLessThanHalf : lostFraction
  | lfExactlyHalf : lostFraction
  | lfMoreThanHalf : lostFraction
  deriving DecidableEq, Repr

/-- An `IEEEFloat`: for category `fcNormal` the magnitude is
`significand * 2^(exponent - precision + 1)`. -/
structure IEEEFloat where
  semantics : fltSemantics
  significand : Nat
  exponent : Int
  category : fltCategory
  sign : Bool
  deriving DecidableEq, Repr

/-- Width of one significand word (`integerPartWidth`). -/
def integerPartWidth : Nat := 64

/-- The function `partCountForBits`. -/
def partCountForBits (bits : Nat) : Nat := (bits + integerPartWidth - 1) / integerPartWidth

/-- The method `partCount ()`: words of the significand, one bit more than the
precision. -/
def fltSemantics.partCount (sem : fltSemantics) : Nat := partCountForBits (sem.precision + 1)

/-- One-based position of the most significant set bit among the low `bits` bits
of `value` (`tcMSB (...) + 1`), 0 when none is set. -/
def oneBasedMSB (value : Nat) : Nat → Nat
  | 0 => 0
  | k + 1 => if 2 ^ k ≤ value then k + 1 else oneBasedMSB value k

/-- The expression `significandMSB () + 1`. -/
def IEEEFloat.omsb (x : IEEEFloat) : Nat :=
  oneBasedMSB x.significand (integerPartWidth * x.semantics.partCount)

/-- The function `lostFractionThroughTruncation`: what the low `bits` bits of
`value` amount to, relative to half a unit of the bit above them. -/
def lostFractionThroughTruncation (value bits : Nat) : lostFraction :=
  if value % 2 ^ bits = 0 then lostFraction.lfExactlyZero
  else if value % 2 ^ bits = 2 ^ (bits - 1) then lostFraction.lfExactlyHalf
  else if value.testBit (bits - 1) then lostFraction.lfMoreThanHalf
  else lostFraction.lfLessThanHalf

/-- The function `combineLostFractions`. -/
def combineLostFractions (moreSignificant lessSignificant : lostFraction) : lostFraction :=
  if lessSignificant ≠ lostFraction.lfExactlyZero then
    if moreSignificant = lostFraction.lfExactlyZero then lostFraction.lfLessThanHalf
    else if moreSignificant = lostFraction.lfExactlyHalf then lostFraction.lfMoreThanHalf
    else moreSignificant
  else moreSignificant

/-- The method `isFiniteNonZero ()`. -/
def IEEEFloat.isFiniteNonZero (x : IEEEFloat) : Bool := decide (x.category = fltCategory.fcNormal)

/-- The method `changeSign ()`. -/
def IEEEFloat.changeSign (x : IEEEFloat) : IEEEFloat := { x with sign := !x.sign }

/-- The method `makeLargest (Negative)`. -/
def IEEEFloat.makeLargest (x : IEEEFloat) (Negative : Bool) : IEEEFloat :=
  { x with category := fltCategory.fcNormal, sign := Negative,
           exponent := x.semantics.maxExponent,
           significand := 2 ^ x.semantics.precision - 1 }

/-- The method `makeSmallest (Negative)`. -/
def IEEEFloat.makeSmallest (x : IEEEFloat) (Negative : Bool) : IEEEFloat :=
  { x with category := fltCategory.fcNormal, sign := Negative,
           exponent := x.semantics.minExponent, significand := 1 }

/-- The method `handleOverflow (rounding_mode)`: infinity when the mode rounds
away from zero for this sign, otherwise the largest finite number. -/
def IEEEFloat.handleOverflow (x : IEEEFloat) (rounding_mode : roundingMode) : IEEEFloat :=
  if rounding_mode = roundingMode.rmNearestTiesToEven
      ∨ rounding_mode = roundingMode.rmNearestTiesToAway
      ∨ (rounding_mode = roundingMode.rmTowardPositive ∧ x.sign = false)
      ∨ (rounding_mode = roundingMode.rmTowardNegative ∧ x.sign = true) then
    { x with category := fltCategory.fcInfinity }
  else
    { x with category := fltCategory.fcNormal, exponent := x.semantics.maxExponent,
             significand := 2 ^ x.semantics.precision - 1 }

/-- The method `roundAwayFromZero (rounding_mode, lost_fraction, bit)`. -/
def IEEEFloat.roundAwayFromZero (x : IEEEFloat) (rounding_mode : roundingMode)
    (lost_fraction : lostFraction) (bit : Nat) : Bool :=
  match rounding_mode with
  | roundingMode.rmNearestTiesToAway =>
    decide (lost_fraction = lostFraction.lfExactlyHalf
      ∨ lost_fraction = lostFraction.lfMoreThanHalf)
  | roundingMode.rmNearestTiesToEven =>
    if lost_fraction = lostFraction.lfMoreThanHalf then true
    else if lost_fraction = lostFraction.lfExactlyHalf ∧ x.category ≠ fltCategory.fcZero then
      x.significand.testBit bit
    else false
  | roundingMode.rmTowardZero => false
  | roundingMode.rmTowardPositive => !x.sign
  | roundingMode.rmTowardNegative => x.sign

/-- The method `shiftSignificandLeft (bits)`. -/
def IEEEFloat.shiftSignificandLeft (x : IEEEFloat) (bits : Nat) : IEEEFloat :=
  if bits ≠ 0 then
    { x with significand := x.significand * 2 ^ bits, exponent := x.exponent - bits }
  else x

/-- The method `shiftSignificandRight (bits)`: the shifted value and the lost
fraction. -/
def IEEEFloat.shiftSignificandRight (x : IEEEFloat) (bits : Nat) : IEEEFloat × lostFraction :=
  ({ x with exponent := x.exponent + bits, significand := x.significand / 2 ^ bits },
   lostFractionThroughTruncation x.significand bits)

/-- The method `incrementSignificand ()`. -/
def IEEEFloat.incrementSignificand (x : IEEEFloat) : IEEEFloat :=
  { x with significand := x.significand + 1 }

/-- Second half of `normalize`: rounding of a value whose exponent has been
adjusted, given the lost fraction and the one-based MSB position. -/
def IEEEFloat.normalizeRound (x : IEEEFloat) (rounding_mode : roundingMode)
    (lost_fraction : lostFraction) (omsb : Nat) : IEEEFloat :=
  if lost_fraction = lostFraction.lfExactlyZero then
    if omsb = 0 then { x with category := fltCategory.fcZero } else x
  else if x.roundAwayFromZero rounding_mode lost_fraction 0 then
    let x1 := if omsb = 0 then { x with exponent := x.semantics.minExponent } else x
    let x2 := x1.incrementSignificand
    let omsb2 := x2.omsb
    if omsb2 = x.semantics.precision + 1 then
      if x2.exponent = x.semantics.maxExponent then
        { x2 with category := fltCategory.fcInfinity }
      else (x2.shiftSignificandRight 1).1
    else if omsb2 = x.semantics.precision then x2
    else if omsb2 = 0 then { x2 with category := fltCategory.fcZero }
    else x2
  else if omsb = x.semantics.precision then x
  else if omsb = 0 then { x with category := fltCategory.fcZero }
  else x

/-- The method `normalize (rounding_mode, lost_fraction)`. -/
def IEEEFloat.normalize (x : IEEEFloat) (rounding_mode : roundingMode)
    (lost_fraction : lostFraction) : IEEEFloat :=
  if !x.isFiniteNonZero then x
  else
    let omsb := x.omsb
    if omsb ≠ 0 then
      let exponentChange0 : Int := (omsb : Int) - (x.semantics.precision : Int)
      if x.exponent + exponentChange0 > x.semantics.maxExponent then
        x.handleOverflow rounding_mode
      else
        let exponentChange : Int :=
          if x.exponent + exponentChange0 < x.semantics.minExponent then
            x.semantics.minExponent - x.exponent
          else exponentChange0
        if exponentChange < 0 then
          x.shiftSignificandLeft (-exponentChange).toNat
        else if exponentChange > 0 then
          let r := x.shiftSignificandRight exponentChange.toNat
          let lost_fraction1 := combineLostFractions r.2 lost_fraction
          let omsb1 := if (omsb : Int) > exponentChange then omsb - exponentChange.toNat else 0
          r.1.normalizeRound rounding_mode lost_fraction1 omsb1
        else x.normalizeRound rounding_mode lost_fraction omsb
    else x.normalizeRound rounding_mode lost_fraction omsb

/-- The value `APFloat (semantics, APInt::getNullValue (bits))`: positive zero. -/
def IEEEFloat.zero (sem : fltSemantics) : IEEEFloat :=
  { semantics := sem, significand := 0, exponent := sem.minExponent - 1,
    category := fltCategory.fcZero, sign := false }

/-- The method `isSmallest ()`: the smallest denormal magnitude. -/
def IEEEFloat.isSmallest (x : IEEEFloat) : Bool :=
  x.isFiniteNonZero && decide (x.exponent = x.semantics.minExponent) && decide (x.omsb = 1)

/-- The method `isSignificandAllOnes ()`, the test "every bit below the integer
bit is set", as the library releases that this file builds against implement it
(the file includes `llvm/Support/TargetRegistry.h` and drives the legacy
`PassManagerBuilder`): the loop walks the first `partCount () - 1` significand
words, which must be all ones, and the last word is then compared after its
`NumHighBits = PartCount * integerPartWidth - precision + 1` high bits have been
filled, so that its low `integerPartWidth - NumHighBits` bits are read.
`partCount ()` counts the words of `precision + 1` bits: when the precision is a
multiple of the word width the walked words hold the integer bit too and
`NumHighBits` exceeds the word width, which the library asserts not to happen
(the shift count is then out of range): no result. -/
def IEEEFloat.isSignificandAllOnes (x : IEEEFloat) : Option Bool :=
  let PartCount := x.semantics.partCount
  let lowWidth := integerPartWidth * (PartCount - 1)
  if x.significand % 2 ^ lowWidth ≠ 2 ^ lowWidth - 1 then some false
  else
    let NumHighBits := PartCount * integerPartWidth - x.semantics.precision + 1
    if NumHighBits ≤ integerPartWidth then
      let last := (x.significand / 2 ^ lowWidth) % 2 ^ integerPartWidth
      some (decide (last % 2 ^ (integerPartWidth - NumHighBits)
        = 2 ^ (integerPartWidth - NumHighBits) - 1))
    else none

/-- The method `isSignificandAllZeros ()`, the test "every bit below the integer
bit is clear", implemented like `isSignificandAllOnes ()`: the first
`partCount () - 1` words must be zero and the last word is masked with
`~0 >> NumHighBits`, a shift that is defined for `NumHighBits` below the word
width. -/
def IEEEFloat.isSignificandAllZeros (x : IEEEFloat) : Option Bool :=
  let PartCount := x.semantics.partCount
  let lowWidth := integerPartWidth * (PartCount - 1)
  if x.significand % 2 ^ lowWidth ≠ 0 then some false
  else
    let NumHighBits := PartCount * integerPartWidth - x.semantics.precision + 1
    if NumHighBits < integerPartWidth then
      let last := (x.significand / 2 ^ lowWidth) % 2 ^ integerPartWidth
      some (decide (last % 2 ^ (integerPartWidth - NumHighBits) = 0))
    else none

/-- The method `isLargest ()`:
`isFiniteNonZero () && exponent == maxExponent && isSignificandAllOnes ()`. -/
def IEEEFloat.isLargest (x : IEEEFloat) : Option Bool :=
  if x.isFiniteNonZero && decide (x.exponent = x.semantics.maxExponent) then
    x.isSignificandAllOnes
  else some false

/-- The method `isDenormal ()`. -/
def IEEEFloat.isDenormal (x : IEEEFloat) : Bool :=
  x.isFiniteNonZero && decide (x.exponent = x.semantics.minExponent)
    && !x.significand.testBit (x.semantics.precision - 1)

/-- The method `isSignaling ()`: a NaN whose quiet bit is clear. -/
def IEEEFloat.isSignaling (x : IEEEFloat) : Bool :=
  decide (x.category = fltCategory.fcNaN)
    && !x.significand.testBit (x.semantics.precision - 2)

/-- The method `makeNaN (SNaN = false, Negative, fill = nullptr)`: a quiet NaN. -/
def IEEEFloat.makeNaN (x : IEEEFloat) (Negative : Bool) : IEEEFloat :=
  { x with category := fltCategory.fcNaN, sign := Negative,
           significand :=
             if x.semantics = semX87DoubleExtended then
               2 ^ (x.semantics.precision - 2) ||| 2 ^ (x.semantics.precision - 1)
             else 2 ^ (x.semantics.precision - 2) }

/-- The method `next (nextDown)`: the neighbouring value, upward, or downward by
negating before and after.  There is no result when one of the binade tests it
evaluates has none. -/
def IEEEFloat.next (x : IEEEFloat) (nextDown : Bool) : Option IEEEFloat :=
  let x0 := if nextDown then x.changeSign else x
  let r : Option IEEEFloat :=
    match x0.category with
    | fltCategory.fcInfinity => some (if !x0.sign then x0 else x0.makeLargest true)
    | fltCategory.fcNaN => some (if x0.isSignaling then x0.makeNaN x0.sign else x0)
    | fltCategory.fcZero => some (x0.makeSmallest false)
    | fltCategory.fcNormal =>
      if x0.isSmallest && x0.sign then
        some { x0 with significand := 0, category := fltCategory.fcZero, exponent := 0 }
      else
        match x0.isLargest with
        | none => none
        | some largest =>
          if largest && !x0.sign then
            some { x0 with significand := 0, category := fltCategory.fcInfinity,
                           exponent := x0.semantics.maxExponent + 1 }
          else if x0.sign then
            match (if x0.exponent ≠ x0.semantics.minExponent then x0.isSignificandAllZeros
                   else some false) with
            | none => none
            | some WillCrossBinadeBoundary =>
              let x2 := { x0 with significand := x0.significand - 1 }
              if WillCrossBinadeBoundary then
                some { x2 with
                  significand := x2.significand ||| 2 ^ (x0.semantics.precision - 1),
                  exponent := x2.exponent - 1 }
              else some x2
          else
            match (if !x0.isDenormal then x0.isSignificandAllOnes else some false) with
            | none => none
            | some WillCrossBinadeBoundary =>
              if WillCrossBinadeBoundary then
                some { x0 with significand := 2 ^ (x0.semantics.precision - 1),
                               exponent := x0.exponent + 1 }
              else some x0.incrementSignificand
  match r with
  | none => none
  | some x1 => some (if nextDown then x1.changeSign else x1)

/-- The method `multiplySpecials (rhs)`: the category of a product. -/
def IEEEFloat.multiplySpecials (x rhs : IEEEFloat) : IEEEFloat :=
  match x.category, rhs.category with
  | fltCategory.fcNaN, _ => { x with sign := false }
  | _, fltCategory.fcNaN =>
    { x with sign := false, category := fltCategory.fcNaN, significand := rhs.significand }
  | fltCategory.fcNormal, fltCategory.fcInfinity => { x with category := fltCategory.fcInfinity }
  | fltCategory.fcInfinity, fltCategory.fcNormal => { x with category := fltCategory.fcInfinity }
  | fltCategory.fcInfinity, fltCategory.fcInfinity =>
    { x with category := fltCategory.fcInfinity }
  | fltCategory.fcZero, fltCategory.fcNormal => { x with category := fltCategory.fcZero }
  | fltCategory.fcNormal, fltCategory.fcZero => { x with category := fltCategory.fcZero }
  | fltCategory.fcZero, fltCategory.fcZero => { x with category := fltCategory.fcZero }
  | fltCategory.fcZero, fltCategory.fcInfinity => x.makeNaN false
  | fltCategory.fcInfinity, fltCategory.fcZero => x.makeNaN false
  | fltCategory.fcNormal, fltCategory.fcNormal => x

/-- The method `multiplySignificand (rhs, nullptr)`: the double-width product of
the significands brought back to at most `precision` bits, with the lost
fraction. -/
def IEEEFloat.multiplySignificand (x rhs : IEEEFloat) : IEEEFloat × lostFraction :=
  let precision := x.semantics.precision
  let newPartsCount := partCountForBits (precision * 2 + 1)
  let fullSignificand := x.significand * rhs.significand
  let omsb := oneBasedMSB fullSignificand (integerPartWidth * newPartsCount)
  let exponent : Int := x.exponent + rhs.exponent + 2 - ((precision : Int) + 1)
  if omsb > precision then
    let bits := omsb - precision
    let lf := lostFractionThroughTruncation fullSignificand bits
    ({ x with significand :=
                (fullSignificand / 2 ^ bits) % 2 ^ (integerPartWidth * x.semantics.partCount),
              exponent := exponent + bits },
     combineLostFractions lf lostFraction.lfExactlyZero)
  else
    ({ x with significand := fullSignificand % 2 ^ (integerPartWidth * x.semantics.partCount),
              exponent := exponent },
     lostFraction.lfExactlyZero)

/-- The method `multiply (rhs, rounding_mode)`. -/
def IEEEFloat.multiply (x rhs : IEEEFloat) (rounding_mode : roundingMode) : IEEEFloat :=
  let x1 := { x with sign := xor x.sign rhs.sign }
  let x2 := x1.multiplySpecials rhs
  if x2.isFiniteNonZero then
    let r := x2.multiplySignificand rhs
    r.1.normalize rounding_mode r.2
  else x2

/-- The constructor `APFloat (semantics, value)` from an integer. -/
def IEEEFloat.ofIntegerPart (sem : fltSemantics) (value : uint64_t) : IEEEFloat :=
  ({ semantics := sem, significand := value.val, exponent := (sem.precision : Int) - 1,
     category := fltCategory.fcNormal, sign := false } : IEEEFloat).normalize
    roundingMode.rmNearestTiesToEven lostFraction.lfExactlyZero

/-- The function `Pred_FP`; `sem` is `T->getFltSemantics ()` and `Val` the value of
the constant.  `multiply` requires both operands to have the same format. -/
def Pred_FP (sem : fltSemantics) (Val : IEEEFloat) : Option IEEEFloat :=
  let apf := Val
  let one := IEEEFloat.ofIntegerPart sem 1
  match apf.next true with
  | none => none
  | some apf1 =>
    if apf1.semantics = one.semantics then some (apf1.multiply one roundingMode.rmTowardZero)
    else none

/-! ### Values and the specification of rounding -/

/-- The rational number denoted by a finite value (0 for the other categories). -/
def IEEEFloat.toRat (x : IEEEFloat) : ℚ :=
  match x.category with
  | fltCategory.fcNormal =>
    (if x.sign then -1 else 1) * (x.significand : ℚ)
      * (2 : ℚ) ^ (x.exponent - (x.semantics.precision : Int) + 1)
  | _ => 0

/-- The value is finite (zero or non-zero). -/
def IEEEFloat.isFinite (x : IEEEFloat) : Bool :=
  decide (x.category = fltCategory.fcNormal) || decide (x.category = fltCategory.fcZero)

/-- A rational number is a finite value of the format: its magnitude is
`m * 2^(e - precision + 1)` with `m < 2^precision` and `e` in the exponent range. -/
def fltSemantics.representable (sem : fltSemantics) (r : ℚ) : Prop :=
  ∃ (m : Nat) (e : Int), m < 2 ^ sem.precision ∧ sem.minExponent ≤ e ∧ e ≤ sem.maxExponent
    ∧ |r| = (m : ℚ) * (2 : ℚ) ^ (e - (sem.precision : Int) + 1)

/-- Normalised representation of a finite value of format `sem`: a non-zero
value has a non-zero significand below `2^precision`, an exponent in range, and
its integer bit set unless the exponent is minimal. -/
def IEEEFloat.canonical (sem : fltSemantics) (x : IEEEFloat) : Bool :=
  decide (x.semantics = sem)
  && (match x.category with
      | fltCategory.fcNormal =>
        decide (0 < x.significand) && decide (x.significand < 2 ^ sem.precision)
          && decide (sem.minExponent ≤ x.exponent) && decide (x.exponent ≤ sem.maxExponent)
          && (decide (2 ^ (sem.precision - 1) ≤ x.significand)
              || decide (x.exponent = sem.minExponent))
      | fltCategory.fcZero => true
      | _ => false)

/-- Specification of the predecessor: `r` is the greatest finite value of the
format strictly below `v`. -/
def isPredecessor (sem : fltSemantics) (v r : ℚ) : Prop :=
  sem.representable r ∧ r < v ∧ ∀ w : ℚ, sem.representable w → w < v → w ≤ r

/-- Every bit of the significand below the integer bit is set. -/
def IEEEFloat.fractionAllOnes (x : IEEEFloat) : Bool :=
  decide (x.significand % 2 ^ (x.semantics.precision - 1)
    = 2 ^ (x.semantics.precision - 1) - 1)

/-- Every bit of the significand below the integer bit is clear. -/
def IEEEFloat.fractionAllZeros (x : IEEEFloat) : Bool :=
  decide (x.significand % 2 ^ (x.semantics.precision - 1) = 0)

/-- The value has the largest finite magnitude of its format. -/
def IEEEFloat.isLargestFinite (x : IEEEFloat) : Bool :=
  x.isFiniteNonZero && decide (x.exponent = x.semantics.maxExponent)
    && x.fractionAllOnes

/-- The most negative finite value of the format. -/
def IEEEFloat.isMostNegative (x : IEEEFloat) : Bool := x.isLargestFinite && x.sign

/-- The steps of `next` with the two binade tests replaced by `fractionAllOnes` and
`fractionAllZeros`.  `next` computes this on the formats whose significand leaves
at least two bits of the last word free (`next_eq_nextExact`). -/
def IEEEFloat.nextExact (x : IEEEFloat) (nextDown : Bool) : IEEEFloat :=
  let x0 := if nextDown then x.changeSign else x
  let x1 :=
    match x0.category with
    | fltCategory.fcInfinity => if !x0.sign then x0 else x0.makeLargest true
    | fltCategory.fcNaN => if x0.isSignaling then x0.makeNaN x0.sign else x0
    | fltCategory.fcZero => x0.makeSmallest false
    | fltCategory.fcNormal =>
      if x0.isSmallest && x0.sign then
        { x0 with significand := 0, category := fltCategory.fcZero, exponent := 0 }
      else if x0.isLargestFinite && !x0.sign then
        { x0 with significand := 0, category := fltCategory.fcInfinity,
                  exponent := x0.semantics.maxExponent + 1 }
      else if x0.sign then
        let WillCrossBinadeBoundary :=
          decide (x0.exponent ≠ x0.semantics.minExponent) && x0.fractionAllZeros
        let x2 := { x0 with significand := x0.significand - 1 }
        if WillCrossBinadeBoundary then
          { x2 with significand := x2.significand ||| 2 ^ (x0.semantics.precision - 1),
                    exponent := x2.exponent - 1 }
        else x2
      else
        let WillCrossBinadeBoundary := !x0.isDenormal && x0.fractionAllOnes
        if WillCrossBinadeBoundary then
          { x0 with significand := 2 ^ (x0.semantics.precision - 1),
                    exponent := x0.exponent + 1 }
        else x0.incrementSignificand
  if nextDown then x1.changeSign else x1

/-- Strict order of two non-NaN values, negative infinity below and positive
infinity above every finite value. -/
def IEEEFloat.lessThan (a b : IEEEFloat) : Prop :=
  (a.category = fltCategory.fcInfinity ∧ a.sign = true
      ∧ ¬ (b.category = fltCategory.fcInfinity ∧ b.sign = true)
      ∧ b.category ≠ fltCategory.fcNaN)
  ∨ (b.category = fltCategory.fcInfinity ∧ b.sign = false
      ∧ ¬ (a.category = fltCategory.fcInfinity ∧ a.sign = false)
      ∧ a.category ≠ fltCategory.fcNaN)
  ∨ (a.isFinite = true ∧ b.isFinite = true ∧ a.toRat < b.toRat)

theorem storeOp_append_cons (pre : List Metadata) (x v : Metadata) (post : List Metadata) :
    storeOp (pre ++ x :: post) pre.length v = some (pre ++ v :: post) := by
  unfold storeOp
  have h : pre.length < (pre ++ x :: post).length := by simp
  rw [if_pos h]
  simp

theorem loop_fills_fields (all : List (Metadata × uint64_t × uint64_t))
    (hall : 3 * all.length + 3 ≤ UINT_SIZE) :
    ∀ (rest done : List (Metadata × uint64_t × uint64_t)) (pre : List Metadata),
      all = done ++ rest → pre.length = 3 + 3 * done.length →
      Create_TBAA_Struct_Type_Node_loop (all.map (fun f => f.1)) (all.map (fun f => f.2.1))
          (all.map (fun f => f.2.2)) rest.length done.length
          (pre ++ List.replicate (3 * rest.length) Metadata.null)
        = some (pre ++ rest.flatMap fieldOperands) := by
  intro rest
  induction rest with
  | nil =>
    intro done pre _ _
    simp [Create_TBAA_Struct_Type_Node_loop]
  | cons f rest ih =>
    intro done pre hsplit hpre
    have hlen : all.length = done.length + (rest.length + 1) := by
      rw [hsplit]; simp
    have hget : all[done.length]? = some f := by
      rw [hsplit, List.getElem?_append_right (le_refl _)]; simp
    have hf : (all.map (fun f => f.1))[done.length]? = some f.1 := by
      rw [List.getElem?_map, hget]; rfl
    have ho : (all.map (fun f => f.2.1))[done.length]? = some f.2.1 := by
      rw [List.getElem?_map, hget]; rfl
    have hs : (all.map (fun f => f.2.2))[done.length]? = some f.2.2 := by
      rw [List.getElem?_map, hget]; rfl
    have h0 : (3 + done.length * 3) % UINT_SIZE = pre.length := by
      rw [Nat.mod_eq_of_lt (by omega)]; omega
    have h1 : (3 + done.length * 3 + 1) % UINT_SIZE = (pre ++ [f.1]).length := by
      rw [Nat.mod_eq_of_lt (by omega)]; simp; omega
    have h2 : (3 + done.length * 3 + 2) % UINT_SIZE
        = (pre ++ [f.1, createConstantInt64 f.2.1]).length := by
      rw [Nat.mod_eq_of_lt (by omega)]; simp; omega
    have hrep : List.replicate (3 * (rest.length + 1)) Metadata.null
        = Metadata.null :: Metadata.null :: Metadata.null
          :: List.replicate (3 * rest.length) Metadata.null := by
      have : 3 * (rest.length + 1) = 3 * rest.length + 1 + 1 + 1 := by omega
      rw [this]; rfl
    have e1 : pre ++ f.1 :: Metadata.null :: Metadata.null
          :: List.replicate (3 * rest.length) Metadata.null
        = (pre ++ [f.1]) ++ Metadata.null :: Metadata.null
          :: List.replicate (3 * rest.length) Metadata.null := by simp
    have e2 : (pre ++ [f.1]) ++ createConstantInt64 f.2.1 :: Metadata.null
          :: List.replicate (3 * rest.length) Metadata.null
        = (pre ++ [f.1, createConstantInt64 f.2.1]) ++ Metadata.null
          :: List.replicate (3 * rest.length) Metadata.null := by simp
    have e3 : (pre ++ [f.1, createConstantInt64 f.2.1]) ++ createConstantInt64 f.2.2
          :: List.replicate (3 * rest.length) Metadata.null
        = (pre ++ fieldOperands f) ++ List.replicate (3 * rest.length) Metadata.null := by
      simp [fieldOperands]
    have hstep := ih (done ++ [f]) (pre ++ fieldOperands f) (by rw [hsplit]; simp)
      (by simp [fieldOperands]; omega)
    have hdl : (done ++ [f]).length = done.length + 1 := by simp
    rw [hdl] at hstep
    simp only [List.length_cons]
    rw [Create_TBAA_Struct_Type_Node_loop, hf, ho, hs]
    simp only []
    rw [hrep, h0, storeOp_append_cons, e1]
    simp only []
    rw [h1, storeOp_append_cons, e2]
    simp only []
    rw [h2, storeOp_append_cons, e3]
    simp only []
    rw [hstep]
    simp [fieldOperands]

theorem toSizeT_of_nonneg (x : Int) (h0 : 0 ≤ x) (h1 : x < 18446744073709551616) :
    toSizeT x = x.toNat := by
  simp only [toSizeT, UINT64_SIZE, Nat.cast_ofNat]
  rw [Int.emod_eq_of_lt h0 h1]

theorem toUnsigned_of_nonneg (x : Int) (h0 : 0 ≤ x) (h1 : x < 4294967296) :
    toUnsigned x = x.toNat := by
  simp only [toUnsigned, UINT_SIZE, Nat.cast_ofNat]
  rw [Int.emod_eq_of_lt h0 h1]

theorem createStructNode_eq (name : String) (size : uint64_t) (parent : Metadata)
    (fs : List (Metadata × uint64_t × uint64_t)) (h : 3 * fs.length + 3 ≤ 2147483647) :
    createStructNode name size parent fs
      = some (Metadata.MDNode (structOperands name size parent fs)) := by
  have hr1 : inIntRange ((fs.length : Int) * 3) = true := by
    simp [inIntRange, INT_MIN, INT_MAX]; omega
  have hr2 : inIntRange ((fs.length : Int) * 3 + 3) = true := by
    simp [inIntRange, INT_MIN, INT_MAX]; omega
  have hsz : toSizeT ((fs.length : Int) * 3 + 3) = 3 * fs.length + 1 + 1 + 1 := by
    rw [toSizeT_of_nonneg _ (by omega) (by omega)]; omega
  have hu : toUnsigned (fs.length : Int) = fs.length := by
    rw [toUnsigned_of_nonneg _ (by omega) (by omega)]; omega
  have hloop := loop_fills_fields fs (by unfold UINT_SIZE; omega) fs []
    [parent, createConstantInt64 size, createString name] (by simp) (by simp)
  unfold createStructNode Create_TBAA_Struct_Type_Node
  rw [hr1, hr2, hsz, hu]
  simp only [Bool.and_self, if_true, List.replicate_succ]
  simp only [List.length_nil] at hloop
  have s0 : storeOp (Metadata.null :: Metadata.null :: Metadata.null
        :: List.replicate (3 * fs.length) Metadata.null) 0 parent
      = some (parent :: Metadata.null :: Metadata.null
        :: List.replicate (3 * fs.length) Metadata.null) :=
    storeOp_append_cons [] _ _ _
  have s1 : storeOp (parent :: Metadata.null :: Metadata.null
        :: List.replicate (3 * fs.length) Metadata.null) 1 (createConstantInt64 size)
      = some (parent :: createConstantInt64 size :: Metadata.null
        :: List.replicate (3 * fs.length) Metadata.null) :=
    storeOp_append_cons [parent] _ _ _
  have s2 : storeOp (parent :: createConstantInt64 size :: Metadata.null
        :: List.replicate (3 * fs.length) Metadata.null) 2 (createString name)
      = some (parent :: createConstantInt64 size :: createString name
        :: List.replicate (3 * fs.length) Metadata.null) :=
    storeOp_append_cons [parent, createConstantInt64 size] _ _ _
  rw [s0]; simp only []
  rw [s1]; simp only []
  rw [s2]; simp only []
  have hl : [parent, createConstantInt64 size, createString name]
        ++ List.replicate (3 * fs.length) Metadata.null
      = parent :: createConstantInt64 size :: createString name
        :: List.replicate (3 * fs.length) Metadata.null := rfl
  rw [hl] at hloop
  rw [hloop]
  rfl

theorem createStructNode_overflow (name : String) (size : uint64_t) (parent : Metadata)
    (fs : List (Metadata × uint64_t × uint64_t)) (h : 2147483647 < 3 * fs.length + 3) :
    createStructNode name size parent fs = none := by
  have hr2 : inIntRange ((fs.length : Int) * 3 + 3) = false := by
    simp [inIntRange, INT_MIN, INT_MAX]; omega
  unfold createStructNode Create_TBAA_Struct_Type_Node
  rw [hr2]
  simp

theorem flatMap_fieldOperands_length (fs : List (Metadata × uint64_t × uint64_t)) :
    (fs.flatMap fieldOperands).length = 3 * fs.length := by
  induction fs with
  | nil => rfl
  | cons f fs ih => simp [List.flatMap_cons, fieldOperands, ih]; omega

theorem flatMap_fieldOperands_get (fs : List (Metadata × uint64_t × uint64_t)) :
    ∀ (i : Nat) (f : Metadata × uint64_t × uint64_t), fs[i]? = some f →
      (fs.flatMap fieldOperands)[3 * i]? = some f.1
      ∧ (fs.flatMap fieldOperands)[3 * i + 1]? = some (createConstantInt64 f.2.1)
      ∧ (fs.flatMap fieldOperands)[3 * i + 2]? = some (createConstantInt64 f.2.2) := by
  induction fs with
  | nil => intro i f h; simp at h
  | cons g fs ih =>
    intro i f h
    cases i with
    | zero =>
      simp at h
      subst h
      simp [List.flatMap_cons, fieldOperands]
    | succ i =>
      simp at h
      have := ih i f h
      have e0 : 3 * (i + 1) = 3 * i + 1 + 1 + 1 := by omega
      have e1 : 3 * (i + 1) + 1 = (3 * i + 1) + 1 + 1 + 1 := by omega
      have e2 : 3 * (i + 1) + 2 = (3 * i + 2) + 1 + 1 + 1 := by omega
      obtain ⟨a, b, c⟩ := this
      refine ⟨?_, ?_, ?_⟩
      · rw [e0]; simpa [List.flatMap_cons, fieldOperands] using a
      · rw [e1]; simpa [List.flatMap_cons, fieldOperands] using b
      · rw [e2]; simpa [List.flatMap_cons, fieldOperands] using c

theorem structOperands_get (name : String) (size : uint64_t) (parent : Metadata)
    (fs : List (Metadata × uint64_t × uint64_t)) (i : Nat)
    (f : Metadata × uint64_t × uint64_t) (h : fs[i]? = some f) :
    (structOperands name size parent fs)[3 + 3 * i]? = some f.1
    ∧ (structOperands name size parent fs)[3 + 3 * i + 1]? = some (createConstantInt64 f.2.1)
    ∧ (structOperands name size parent fs)[3 + 3 * i + 2]? = some (createConstantInt64 f.2.2) := by
  have := flatMap_fieldOperands_get fs i f h
  have e0 : 3 + 3 * i = 3 * i + 1 + 1 + 1 := by omega
  have e1 : 3 + 3 * i + 1 = (3 * i + 1) + 1 + 1 + 1 := by omega
  have e2 : 3 + 3 * i + 2 = (3 * i + 2) + 1 + 1 + 1 := by omega
  obtain ⟨a, b, c⟩ := this
  refine ⟨?_, ?_, ?_⟩
  · rw [e0]; simpa [structOperands] using a
  · rw [e1]; simpa [structOperands] using b
  · rw [e2]; simpa [structOperands] using c

theorem structOperands_length (name : String) (size : uint64_t) (parent : Metadata)
    (fs : List (Metadata × uint64_t × uint64_t)) :
    (structOperands name size parent fs).length = 3 * fs.length + 3 := by
  show (parent :: createConstantInt64 size :: createString name
    :: fs.flatMap fieldOperands).length = 3 * fs.length + 3
  rw [List.length_cons, List.length_cons, List.length_cons, flatMap_fieldOperands_length]

theorem createStructNode_some (name : String) (size : uint64_t) (parent : Metadata)
    (fs : List (Metadata × uint64_t × uint64_t)) (node : Metadata)
    (h : createStructNode name size parent fs = some node) :
    3 * fs.length + 3 ≤ 2147483647
    ∧ node = Metadata.MDNode (structOperands name size parent fs) := by
  by_cases hk : 3 * fs.length + 3 ≤ 2147483647
  · rw [createStructNode_eq name size parent fs hk] at h
    exact ⟨hk, (Option.some.inj h).symm⟩
  · rw [createStructNode_overflow name size parent fs (by omega)] at h
    cases h

theorem Get_Metadata_Operand_of_node (ops : List Metadata) (i : Nat) (t : Metadata)
    (ht : t.isMDNode = true) (h : ops[i]? = some t) :
    Get_Metadata_Operand (Metadata.MDNode ops) i = some t := by
  cases t with
  | MDNode l => simp [Get_Metadata_Operand, getOperand, h]
  | null => simp [Metadata.isMDNode] at ht
  | MDString s => simp [Metadata.isMDNode] at ht
  | ConstantAsMetadata b v => simp [Metadata.isMDNode] at ht

theorem Get_Metadata_Operand_of_constant (ops : List Metadata) (i : Nat) (v : uint64_t)
    (h : ops[i]? = some (createConstantInt64 v)) :
    Get_Metadata_Operand (Metadata.MDNode ops) i = some Metadata.null
    ∧ Get_Metadata_Operand_Constant_Value (Metadata.MDNode ops) i = some v.val := by
  simp [Get_Metadata_Operand, Get_Metadata_Operand_Constant_Value, getOperand, h,
    createConstantInt64]

/-- C1 (claim as stated fails): for a list of 715827882 fields the operand count
`3k+3` exceeds the range of the `int` expression `num_fields * 3 + 3` that sizes
the operand vector, and no node with `3k+3` operands is built. -/
theorem struct_type_node_too_many_fields :
    ¬ ∃ ops : List Metadata,
        createStructNode "S" 8 (Metadata.MDNode [])
            (List.replicate 715827882 (Metadata.MDNode [], 0, 4))
          = some (Metadata.MDNode ops)
        ∧ ops.length = 3 * 715827882 + 3 := by
  rintro ⟨ops, h, -⟩
  have hl : (List.replicate 715827882
      ((Metadata.MDNode [], 0, 4) : Metadata × uint64_t × uint64_t)).length = 715827882 :=
    List.length_replicate _ _
  rw [createStructNode_overflow _ _ _ _ (by rw [hl]; decide)] at h
  cases h

/-- C1 (amended): for every name, size, parent and every list of `k` fields whose
operand count `3k+3` is representable in `int`, `Create_TBAA_Struct_Type_Node`
builds a node with exactly `3k+3` operands laid out as
`[parent, size, name, t_0, o_0, s_0, t_1, o_1, s_1, ...]`. -/
theorem struct_type_node_layout (name : String) (size : uint64_t) (parent : Metadata)
    (fs : List (Metadata × uint64_t × uint64_t)) (hk : 3 * fs.length + 3 ≤ 2147483647) :
    ∃ ops : List Metadata,
      createStructNode name size parent fs = some (Metadata.MDNode ops)
      ∧ ops.length = 3 * fs.length + 3
      ∧ ops = parent :: createConstantInt64 size :: createString name
                :: fs.flatMap fieldOperands
      ∧ ops[0]? = some parent
      ∧ ops[1]? = some (createConstantInt64 size)
      ∧ ops[2]? = some (createString name)
      ∧ ∀ (i : Nat) (t : Metadata) (o s : uint64_t), fs[i]? = some (t, o, s) →
          ops[3 + 3 * i]? = some t
          ∧ ops[3 + 3 * i + 1]? = some (createConstantInt64 o)
          ∧ ops[3 + 3 * i + 2]? = some (createConstantInt64 s) := by
  refine ⟨structOperands name size parent fs, createStructNode_eq name size parent fs hk,
    structOperands_length name size parent fs, rfl, by simp [structOperands],
    by simp [structOperands], by simp [structOperands], ?_⟩
  intro i t o s h
  exact structOperands_get name size parent fs i (t, o, s) h

theorem struct_type_node_layout_witness :
    3 * [((Metadata.MDNode [], 0, 4) : Metadata × uint64_t × uint64_t),
          (Metadata.MDNode [], 4, 4)].length + 3 ≤ 2147483647
    ∧ ∃ ops : List Metadata,
      createStructNode "S" 8 (Metadata.MDNode [])
          [(Metadata.MDNode [], 0, 4), (Metadata.MDNode [], 4, 4)]
        = some (Metadata.MDNode ops)
      ∧ ops.length = 3 * [((Metadata.MDNode [], 0, 4) : Metadata × uint64_t × uint64_t),
          (Metadata.MDNode [], 4, 4)].length + 3
      ∧ ops = Metadata.MDNode [] :: createConstantInt64 8 :: createString "S"
                :: [((Metadata.MDNode [], 0, 4) : Metadata × uint64_t × uint64_t),
                    (Metadata.MDNode [], 4, 4)].flatMap fieldOperands
      ∧ ops[0]? = some (Metadata.MDNode [])
      ∧ ops[1]? = some (createConstantInt64 8)
      ∧ ops[2]? = some (createString "S")
      ∧ ∀ (i : Nat) (t : Metadata) (o s : uint64_t),
          [((Metadata.MDNode [], 0, 4) : Metadata × uint64_t × uint64_t),
            (Metadata.MDNode [], 4, 4)][i]? = some (t, o, s) →
          ops[3 + 3 * i]? = some t
          ∧ ops[3 + 3 * i + 1]? = some (createConstantInt64 o)
          ∧ ops[3 + 3 * i + 2]? = some (createConstantInt64 s) :=
  ⟨by decide, struct_type_node_layout "S" 8 (Metadata.MDNode [])
    [(Metadata.MDNode [], 0, 4), (Metadata.MDNode [], 4, 4)] (by decide)⟩

/-- C10: for every node built by `Create_TBAA_Struct_Type_Node` from `k` fields
(parent and field types being nodes), `Get_Metadata_Num_Operands` returns `3k+3`;
`Get_Metadata_Operand` returns the parent at index 0, the field type `t_i` at index
`3+3i`, and the null (absent) result at the leaf indices 1, 2, `3+3i+1`, `3+3i+2`;
`Get_Metadata_Operand_Constant_Value` returns the size at index 1, `o_i` at index
`3+3i+1` and `s_i` at index `3+3i+2`. -/
theorem introspection_reads_back_struct_node (name : String) (size : uint64_t)
    (parent : Metadata) (fs : List (Metadata × uint64_t × uint64_t)) (node : Metadata)
    (hparent : parent.isMDNode = true)
    (hfields : ∀ f ∈ fs, f.1.isMDNode = true)
    (hbuilt : createStructNode name size parent fs = some node) :
    Get_Metadata_Num_Operands node = some (3 * fs.length + 3)
    ∧ Get_Metadata_Operand node 0 = some parent
    ∧ Get_Metadata_Operand node 1 = some Metadata.null
    ∧ Get_Metadata_Operand node 2 = some Metadata.null
    ∧ Get_Metadata_Operand_Constant_Value node 1 = some size.val
    ∧ ∀ (i : Nat) (t : Metadata) (o s : uint64_t), fs[i]? = some (t, o, s) →
        Get_Metadata_Operand node (3 + 3 * i) = some t
        ∧ Get_Metadata_Operand node (3 + 3 * i + 1) = some Metadata.null
        ∧ Get_Metadata_Operand node (3 + 3 * i + 2) = some Metadata.null
        ∧ Get_Metadata_Operand_Constant_Value node (3 + 3 * i + 1) = some o.val
        ∧ Get_Metadata_Operand_Constant_Value node (3 + 3 * i + 2) = some s.val := by
  obtain ⟨hk, rfl⟩ := createStructNode_some name size parent fs node hbuilt
  refine ⟨?_, ?_, ?_, ?_, ?_, ?_⟩
  · simp only [Get_Metadata_Num_Operands, structOperands_length, UINT_SIZE]
    rw [Nat.mod_eq_of_lt (by omega)]
  · exact Get_Metadata_Operand_of_node _ 0 parent hparent rfl
  · exact (Get_Metadata_Operand_of_constant _ 1 size rfl).1
  · simp [Get_Metadata_Operand, getOperand, structOperands, createString]
  · exact (Get_Metadata_Operand_of_constant _ 1 size rfl).2
  · intro i t o s h
    obtain ⟨a, b, c⟩ := structOperands_get name size parent fs i (t, o, s) h
    have ht : t.isMDNode = true := hfields (t, o, s) (List.getElem?_mem h)
    exact ⟨Get_Metadata_Operand_of_node _ _ t ht a,
      (Get_Metadata_Operand_of_constant _ _ o b).1,
      (Get_Metadata_Operand_of_constant _ _ s c).1,
      (Get_Metadata_Operand_of_constant _ _ o b).2,
      (Get_Metadata_Operand_of_constant _ _ s c).2⟩

theorem introspection_reads_back_struct_node_witness :
    (Metadata.MDNode []).isMDNode = true
    ∧ (∀ f ∈ [((Metadata.MDNode [], 0, 4) : Metadata × uint64_t × uint64_t)],
        f.1.isMDNode = true)
    ∧ createStructNode "S" 8 (Metadata.MDNode []) [(Metadata.MDNode [], 0, 4)]
        = some (Metadata.MDNode [Metadata.MDNode [], Metadata.ConstantAsMetadata 64 8,
            Metadata.MDString "S", Metadata.MDNode [], Metadata.ConstantAsMetadata 64 0,
            Metadata.ConstantAsMetadata 64 4])
    ∧ Get_Metadata_Num_Operands (Metadata.MDNode [Metadata.MDNode [],
          Metadata.ConstantAsMetadata 64 8, Metadata.MDString "S", Metadata.MDNode [],
          Metadata.ConstantAsMetadata 64 0, Metadata.ConstantAsMetadata 64 4])
        = some (3 * [((Metadata.MDNode [], 0, 4) : Metadata × uint64_t × uint64_t)].length + 3) :=
  ⟨rfl, by simp [Metadata.isMDNode], rfl,
    (introspection_reads_back_struct_node "S" 8 (Metadata.MDNode [])
      [(Metadata.MDNode [], 0, 4)] _ rfl (by simp [Metadata.isMDNode]) rfl).1⟩

/-! ## Theorems: optimisation pipeline policy -/

/-- C6: with every suppression flag false, the loop-vectorization toggle and the
SLP-vectorization toggle are each enabled exactly when the optimization level is
above 1 and the size level is below 2; this holds for every pair of levels, in
particular on the grid of optimization levels 0..3 and size levels 0..2. -/
theorem vectorize_toggles_without_suppression (Code_Opt_Level Size_Opt_Level : Int)
    (MergeFunctions PrepareForThinLTO PrepareForLTO RerollLoops : Bool) :
    ((LLVM_Optimize_Module Code_Opt_Level Size_Opt_Level false false false false
        MergeFunctions PrepareForThinLTO PrepareForLTO RerollLoops).LoopVectorize = true
      ↔ (Code_Opt_Level > 1 ∧ Size_Opt_Level < 2))
    ∧ ((LLVM_Optimize_Module Code_Opt_Level Size_Opt_Level false false false false
        MergeFunctions PrepareForThinLTO PrepareForLTO RerollLoops).SLPVectorize = true
      ↔ (Code_Opt_Level > 1 ∧ Size_Opt_Level < 2)) := by
  simp [LLVM_Optimize_Module]

/-- C7 (claim as stated fails): at optimization level 3, size level 0, with
suppress-loop-vectorization set and every other toggle false, it is not the case
that both vectorizers are disabled while the cost-driven inliner is selected. -/
theorem suppress_loop_vectorization_keeps_slp :
    ¬ ((LLVM_Optimize_Module 3 0 false false true false false false false false).LoopVectorize
          = false
        ∧ (LLVM_Optimize_Module 3 0 false false true false false false false false).SLPVectorize
          = false
        ∧ inlinerKind
            (LLVM_Optimize_Module 3 0 false false true false false false false false).Inliner
          = InlinerKind.costDriven) := by
  decide

/-- C7 (amended): at optimization level 3, size level 0, with
suppress-loop-vectorization set and every other toggle false, loop vectorization
is disabled, SLP vectorization stays enabled (it is switched off by its own
suppression flag only), and the cost-driven inliner built from levels (3, 0) is
selected. -/
theorem suppress_loop_vectorization_policy :
    (LLVM_Optimize_Module 3 0 false false true false false false false false).LoopVectorize
        = false
      ∧ (LLVM_Optimize_Module 3 0 false false true false false false false false).SLPVectorize
        = true
      ∧ (LLVM_Optimize_Module 3 0 false false true false false false false false).Inliner
        = some (createFunctionInliningPass 3 0 false)
      ∧ (LLVM_Optimize_Module 3 0 false false true true false false false false).SLPVectorize
        = false := by
  decide

/-- C8: the inliner stored in the builder depends on (suppress-inlining,
optimization level, size level) only; it is the cost-driven inliner built from
(optimization level, size level) exactly when inlining is not suppressed and the
optimization level is above 1, the always-inline-only inliner exactly when
inlining is not suppressed and the optimization level is at most 1, and absent
exactly when inlining is suppressed. -/
theorem inliner_selection (Code_Opt_Level Size_Opt_Level : Int) (No_Inlining : Bool)
    (u v s m t l r u' v' s' m' t' l' r' : Bool) :
    (LLVM_Optimize_Module Code_Opt_Level Size_Opt_Level No_Inlining u v s m t l r).Inliner
        = (LLVM_Optimize_Module Code_Opt_Level Size_Opt_Level No_Inlining
            u' v' s' m' t' l' r').Inliner
    ∧ ((LLVM_Optimize_Module Code_Opt_Level Size_Opt_Level No_Inlining u v s m t l r).Inliner
          = some (createFunctionInliningPass Code_Opt_Level Size_Opt_Level false)
        ↔ (No_Inlining = false ∧ Code_Opt_Level > 1))
    ∧ (inlinerKind
          (LLVM_Optimize_Module Code_Opt_Level Size_Opt_Level No_Inlining u v s m t l r).Inliner
          = InlinerKind.costDriven
        ↔ (No_Inlining = false ∧ Code_Opt_Level > 1))
    ∧ ((LLVM_Optimize_Module Code_Opt_Level Size_Opt_Level No_Inlining u v s m t l r).Inliner
          = some createAlwaysInlinerLegacyPass
        ↔ (No_Inlining = false ∧ Code_Opt_Level ≤ 1))
    ∧ ((LLVM_Optimize_Module Code_Opt_Level Size_Opt_Level No_Inlining u v s m t l r).Inliner
          = none
        ↔ No_Inlining = true) := by
  cases No_Inlining <;> by_cases h : Code_Opt_Level > 1 <;>
    simp [LLVM_Optimize_Module, inlinerKind, createFunctionInliningPass,
      createAlwaysInlinerLegacyPass, h]
  all_goals omega

/-- C9: for every configuration, loop unrolling is disabled iff the optimization
level is 0 or unrolling is suppressed; loop interleaving is enabled iff the level
is not 0 and unrolling is not suppressed; function merging, thin-LTO preparation,
full-LTO preparation and loop rerolling are each enabled iff the level is not 0 and
the respective toggle is set. -/
theorem remaining_toggles (Code_Opt_Level Size_Opt_Level : Int)
    (No_Inlining No_Unroll_Loops No_Loop_Vectorization No_SLP_Vectorization
      MergeFunctions PrepareForThinLTO PrepareForLTO RerollLoops : Bool) :
    ((LLVM_Optimize_Module Code_Opt_Level Size_Opt_Level No_Inlining No_Unroll_Loops
        No_Loop_Vectorization No_SLP_Vectorization MergeFunctions PrepareForThinLTO
        PrepareForLTO RerollLoops).DisableUnrollLoops = true
      ↔ (Code_Opt_Level = 0 ∨ No_Unroll_Loops = true))
    ∧ ((LLVM_Optimize_Module Code_Opt_Level Size_Opt_Level No_Inlining No_Unroll_Loops
        No_Loop_Vectorization No_SLP_Vectorization MergeFunctions PrepareForThinLTO
        PrepareForLTO RerollLoops).LoopsInterleaved = true
      ↔ (Code_Opt_Level ≠ 0 ∧ No_Unroll_Loops = false))
    ∧ ((LLVM_Optimize_Module Code_Opt_Level Size_Opt_Level No_Inlining No_Unroll_Loops
        No_Loop_Vectorization No_SLP_Vectorization MergeFunctions PrepareForThinLTO
        PrepareForLTO RerollLoops).MergeFunctions = true
      ↔ (Code_Opt_Level ≠ 0 ∧ MergeFunctions = true))
    ∧ ((LLVM_Optimize_Module Code_Opt_Level Size_Opt_Level No_Inlining No_Unroll_Loops
        No_Loop_Vectorization No_SLP_Vectorization MergeFunctions PrepareForThinLTO
        PrepareForLTO RerollLoops).PrepareForThinLTO = true
      ↔ (Code_Opt_Level ≠ 0 ∧ PrepareForThinLTO = true))
    ∧ ((LLVM_Optimize_Module Code_Opt_Level Size_Opt_Level No_Inlining No_Unroll_Loops
        No_Loop_Vectorization No_SLP_Vectorization MergeFunctions PrepareForThinLTO
        PrepareForLTO RerollLoops).PrepareForLTO = true
      ↔ (Code_Opt_Level ≠ 0 ∧ PrepareForLTO = true))
    ∧ ((LLVM_Optimize_Module Code_Opt_Level Size_Opt_Level No_Inlining No_Unroll_Loops
        No_Loop_Vectorization No_SLP_Vectorization MergeFunctions PrepareForThinLTO
        PrepareForLTO RerollLoops).RerollLoops = true
      ↔ (Code_Opt_Level ≠ 0 ∧ RerollLoops = true)) := by
  simp [LLVM_Optimize_Module]

/-! ## Theorems: constant-offset folding of address computations -/

theorem two_pow_le_of_le {a b : Nat} (h : a ≤ b) : 2 ^ a ≤ 2 ^ b :=
  Nat.pow_le_pow_right (by decide) h

theorem sextOrTrunc_width (c : APInt) (W : Nat) : (c.sextOrTrunc W).BitWidth = W := by
  unfold APInt.sextOrTrunc
  split
  · rfl
  · split
    · rfl
    · omega

theorem sextOrTrunc_modEq (c : APInt) (W : Nat) :
    ((c.sextOrTrunc W).val : Int) ≡ c.getSExtValue [ZMOD (2 : Int) ^ W] := by
  unfold APInt.sextOrTrunc APInt.getSExtValue
  by_cases h1 : c.BitWidth < W
  · rw [if_pos h1]
    have hle : 2 ^ c.BitWidth ≤ 2 ^ W := two_pow_le_of_le (le_of_lt h1)
    by_cases h2 : c.val < 2 ^ (c.BitWidth - 1)
    · simp only [h2, if_true]; exact Int.ModEq.refl _
    · simp only [h2, if_false]
      push_cast [Nat.cast_sub hle]
      have : (c.val : Int) + ((2 : Int) ^ W - 2 ^ c.BitWidth)
          = ((c.val : Int) - 2 ^ c.BitWidth) + 2 ^ W := by ring
      rw [this]
      exact Int.add_modEq_right
  · rw [if_neg h1]
    by_cases h3 : W < c.BitWidth
    · rw [if_pos h3]
      have hdvd : (2 : Int) ^ W ∣ 2 ^ c.BitWidth := pow_dvd_pow 2 (le_of_lt h3)
      have hm : ((c.val % 2 ^ W : Nat) : Int) ≡ c.val [ZMOD (2 : Int) ^ W] := by
        push_cast; exact Int.mod_modEq _ _
      by_cases h2 : c.val < 2 ^ (c.BitWidth - 1)
      · simp only [h2, if_true]; exact hm
      · simp only [h2, if_false]
        refine hm.trans ?_
        have : ((c.val : Int) - 2 ^ c.BitWidth) ≡ (c.val : Int) - 0 [ZMOD (2 : Int) ^ W] :=
          Int.ModEq.sub (Int.ModEq.refl _) ((Int.modEq_zero_iff_dvd).2 hdvd)
        simpa using this.symm
    · rw [if_neg h3]
      have hW : c.BitWidth = W := by omega
      by_cases h2 : c.val < 2 ^ (c.BitWidth - 1)
      · simp only [h2, if_true]; exact Int.ModEq.refl _
      · simp only [h2, if_false]
        rw [hW]
        have : ((c.val : Int) - 2 ^ W) ≡ (c.val : Int) - 0 [ZMOD (2 : Int) ^ W] :=
          Int.ModEq.sub (Int.ModEq.refl _) ((Int.modEq_zero_iff_dvd).2 (dvd_refl _))
        simpa using this.symm

theorem natCast_mod_modEq (a W : Nat) :
    ((a % 2 ^ W : Nat) : Int) ≡ (a : Int) [ZMOD (2 : Int) ^ W] := by
  push_cast; exact Int.mod_modEq _ _

theorem getSExtValue_of_val_zero (c : APInt) (h : c.val = 0) : c.getSExtValue = 0 := by
  unfold APInt.getSExtValue
  rw [h]
  simp

theorem layoutOffset_cons {Ty : Type} (DL : DataLayout Ty) (s : GEPStep Ty)
    (rest : List (GEPStep Ty)) :
    layoutOffset DL (s :: rest)
      = (match s.operand with
         | IndexOperand.NonConstant => 0
         | IndexOperand.ConstantInt c =>
           match s.structTy with
           | some STy => ((DL.getElementOffset STy c.val).val : Int)
           | none => c.getSExtValue * ((DL.getTypeAllocSize s.indexedTy).val : Int))
        + layoutOffset DL rest := rfl

theorem accumulate_not_allConstant {Ty : Type} (DL : DataLayout Ty) :
    ∀ (steps : List (GEPStep Ty)) (Off : APInt), allConstant steps = false →
      (accumulateConstantOffset DL steps Off).1 = false := by
  intro steps
  induction steps with
  | nil => intro Off h; simp [allConstant] at h
  | cons s rest ih =>
    intro Off h
    unfold accumulateConstantOffset
    cases hop : s.operand with
    | NonConstant => rfl
    | ConstantInt c =>
      have hrest : allConstant rest = false := by
        simpa [allConstant, hop] using h
      simp only []
      split
      · exact ih _ hrest
      · cases s.structTy with
        | some STy => exact ih _ hrest
        | none => exact ih _ hrest

theorem accumulate_allConstant {Ty : Type} (DL : DataLayout Ty)
    (hfirst : ∀ STy, DL.getElementOffset STy 0 = 0) :
    ∀ (steps : List (GEPStep Ty)) (Off : APInt), allConstant steps = true →
      wellTypedChain steps = true →
      ∃ v : Nat, accumulateConstantOffset DL steps Off
            = (true, { BitWidth := Off.BitWidth, val := v })
        ∧ (Off.val < 2 ^ Off.BitWidth → v < 2 ^ Off.BitWidth)
        ∧ (v : Int) ≡ (Off.val : Int) + layoutOffset DL steps
            [ZMOD (2 : Int) ^ Off.BitWidth] := by
  intro steps
  induction steps with
  | nil =>
    intro Off _ _
    refine ⟨Off.val, rfl, fun h => h, ?_⟩
    simp [layoutOffset]
  | cons s rest ih =>
    intro Off hc hw
    cases hop : s.operand with
    | NonConstant => simp [allConstant, hop] at hc
    | ConstantInt c =>
      have hcrest : allConstant rest = true := by
        simpa [allConstant, hop] using hc
      have hwrest : wellTypedChain rest = true := by
        simp only [wellTypedChain, Bool.and_eq_true] at hw
        exact hw.2
      have hwc : c.val < 2 ^ c.BitWidth ∧ 0 < c.BitWidth
          ∧ (s.structTy.isNone = true ∨ c.BitWidth = 32) := by
        simp only [wellTypedChain, hop, Bool.and_eq_true, Bool.or_eq_true,
          decide_eq_true_eq] at hw
        exact ⟨hw.1.1.1, hw.1.1.2, hw.1.2⟩
      unfold accumulateConstantOffset
      simp only [hop]
      by_cases hz : c.val = 0
      · have hzero : c.isZero = true := by simp [APInt.isZero, hz]
        rw [if_pos hzero]
        obtain ⟨v, hv, hlt, hmod⟩ := ih Off hcrest hwrest
        refine ⟨v, hv, hlt, ?_⟩
        have hstep : layoutOffset DL (s :: rest) = layoutOffset DL rest := by
          rw [layoutOffset_cons]
          simp only [hop]
          cases hst : s.structTy with
          | some STy => simp [hz, hfirst]
          | none => simp [getSExtValue_of_val_zero c hz]
        rw [hstep]
        exact hmod
      · have hzero : ¬ (c.isZero = true) := by simp [APInt.isZero, hz]
        rw [if_neg hzero]
        cases hst : s.structTy with
        | some STy =>
          simp only []
          have h32 : c.BitWidth = 32 := by
            rcases hwc.2.2 with h | h
            · simp [hst] at h
            · exact h
          have hidx : c.getZExtValue % UINT_SIZE = c.val := by
            have : c.val < 2 ^ 32 := by rw [← h32]; exact hwc.1
            unfold APInt.getZExtValue UINT_SIZE
            exact Nat.mod_eq_of_lt (by simpa using this)
          rw [hidx]
          obtain ⟨v, hv, hlt, hmod⟩ := ih
            (Off.add (APInt.ofUInt64 Off.BitWidth (DL.getElementOffset STy c.val)))
            hcrest hwrest
          refine ⟨v, hv, fun _ => hlt (Nat.mod_lt _ (by positivity)), ?_⟩
          refine hmod.trans ?_
          have hstep : layoutOffset DL (s :: rest)
              = ((DL.getElementOffset STy c.val).val : Int) + layoutOffset DL rest := by
            rw [layoutOffset_cons]
            simp only [hop, hst]
          rw [hstep, ← add_assoc]
          refine Int.ModEq.add ?_ (Int.ModEq.refl _)
          show (((Off.val + (DL.getElementOffset STy c.val).val % 2 ^ Off.BitWidth)
            % 2 ^ Off.BitWidth : Nat) : Int) ≡ _ [ZMOD (2 : Int) ^ Off.BitWidth]
          refine (natCast_mod_modEq _ _).trans ?_
          push_cast
          exact Int.ModEq.add (Int.ModEq.refl _) (Int.mod_modEq _ _)
        | none =>
          simp only []
          obtain ⟨v, hv, hlt, hmod⟩ := ih
            (Off.add ((c.sextOrTrunc Off.BitWidth).mul
              (APInt.ofUInt64 Off.BitWidth (DL.getTypeAllocSize s.indexedTy))))
            hcrest hwrest
          refine ⟨v, hv, fun _ => hlt (Nat.mod_lt _ (by positivity)), ?_⟩
          refine hmod.trans ?_
          have hstep : layoutOffset DL (s :: rest)
              = c.getSExtValue * ((DL.getTypeAllocSize s.indexedTy).val : Int)
                + layoutOffset DL rest := by
            rw [layoutOffset_cons]
            simp only [hop, hst]
          rw [hstep, ← add_assoc]
          refine Int.ModEq.add ?_ (Int.ModEq.refl _)
          have hbw : (c.sextOrTrunc Off.BitWidth).BitWidth = Off.BitWidth :=
            sextOrTrunc_width c Off.BitWidth
          show (((Off.val + ((c.sextOrTrunc Off.BitWidth).val
              * ((DL.getTypeAllocSize s.indexedTy).val % 2 ^ Off.BitWidth))
                % 2 ^ (c.sextOrTrunc Off.BitWidth).BitWidth)
            % 2 ^ Off.BitWidth : Nat) : Int) ≡ _ [ZMOD (2 : Int) ^ Off.BitWidth]
          rw [hbw]
          refine (natCast_mod_modEq _ _).trans ?_
          push_cast
          refine Int.ModEq.add (Int.ModEq.refl _) ?_
          refine (Int.mod_modEq _ _).trans ?_
          exact Int.ModEq.mul (sextOrTrunc_modEq c Off.BitWidth) (Int.mod_modEq _ _)

theorem Get_GEP_Constant_Offset_eq {Ty : Type} (GEP : Value Ty) (dl : DataLayout Ty)
    (result : Nat) (hw : wellTypedChain GEP.steps = true)
    (hfirst : ∀ STy, dl.getElementOffset STy 0 = 0) :
    Get_GEP_Constant_Offset GEP dl result
      = if foldable dl GEP = true then (true, wrappedOffset dl GEP) else (false, result) := by
  cases GEP with
  | Other ty => simp [Get_GEP_Constant_Offset, foldable]
  | GEPOperator ty steps =>
    by_cases hc : allConstant steps = true
    · obtain ⟨v, hv, hlt, hmod⟩ := accumulate_allConstant dl hfirst steps
        { BitWidth := offsetBitWidth dl (Value.GEPOperator ty steps), val := 0 } hc hw
      have hvlt : v < 2 ^ offsetBitWidth dl (Value.GEPOperator ty steps) :=
        hlt (by positivity)
      have hvS : (v : Int) = layoutOffset dl steps
          % (2 : Int) ^ offsetBitWidth dl (Value.GEPOperator ty steps) := by
        have h1 : (v : Int) % (2 : Int) ^ offsetBitWidth dl (Value.GEPOperator ty steps)
            = (v : Int) :=
          Int.emod_eq_of_lt (by positivity) (by exact_mod_cast hvlt)
        have h2 := hmod
        simp only [Nat.cast_zero, zero_add] at h2
        rw [← h1]
        exact h2
      have hwrap : wrappedOffset dl (Value.GEPOperator ty steps) = v := by
        simp only [wrappedOffset]
        rw [← hvS]
        simp
      simp only [Get_GEP_Constant_Offset, hv, foldable, hc, Bool.true_and, decide_eq_true_eq,
        APInt.isIntN, APInt.getZExtValue, hwrap]
      rw [← hvS]
      by_cases hfit : v < 18446744073709551616
      · have hfit2 : (v : Int) < 2 ^ 64 := by
          have : (v : Int) < 18446744073709551616 := by exact_mod_cast hfit
          simpa using this
        have hmod64 : v % UINT64_SIZE = v := Nat.mod_eq_of_lt hfit
        simp [hfit, hfit2, hmod64]
      · have hfit2 : ¬ ((v : Int) < 2 ^ 64) := by
          intro h
          have : (v : Int) < 18446744073709551616 := by simpa using h
          exact hfit (by exact_mod_cast this)
        simp [hfit, hfit2]
    · have hc2 : allConstant steps = false := by simpa using hc
      have hacc := accumulate_not_allConstant dl steps
        { BitWidth := offsetBitWidth dl (Value.GEPOperator ty steps), val := 0 } hc2
      simp only [Get_GEP_Constant_Offset, foldable, hc2, Bool.false_and]
      cases hres : accumulateConstantOffset dl steps
          { BitWidth := offsetBitWidth dl (Value.GEPOperator ty steps), val := 0 } with
      | mk b off =>
        rw [hres] at hacc
        simp only at hacc
        subst hacc
        simp

theorem foldable_iff {Ty : Type} (GEP : Value Ty) (dl : DataLayout Ty) :
    foldable dl GEP = true
      ↔ ∃ (ty : Ty) (steps : List (GEPStep Ty)), GEP = Value.GEPOperator ty steps
          ∧ allConstant steps = true
          ∧ layoutOffset dl steps % (2 : Int) ^ offsetBitWidth dl GEP < 2 ^ 64 := by
  cases GEP with
  | Other ty => simp [foldable]
  | GEPOperator ty steps =>
    simp only [foldable, Bool.and_eq_true, decide_eq_true_eq]
    constructor
    · intro h
      exact ⟨ty, steps, rfl, h.1, h.2⟩
    · rintro ⟨ty1, steps1, heq, h1, h2⟩
      cases heq
      exact ⟨h1, h2⟩

/-- C4 (claim as stated fails): `getelementptr i32, ptr p, i64 -1` has only
constant indices and layout offset `-4`, yet the value written is
`2^64 - 4`; `getelementptr i64, ptr p, i64 2^62` has layout offset `2^65`, yet the
function returns true and writes `0`. -/
theorem constant_chain_offset_not_exact :
    (Get_GEP_Constant_Offset gepMinusOne sampleLayout 0 = (true, 18446744073709551612)
      ∧ layoutOffset sampleLayout gepMinusOne.steps = -4
      ∧ ((Get_GEP_Constant_Offset gepMinusOne sampleLayout 0).2 : Int)
          ≠ layoutOffset sampleLayout gepMinusOne.steps)
    ∧ (Get_GEP_Constant_Offset gepHugeIndex sampleLayout 7 = (true, 0)
      ∧ layoutOffset sampleLayout gepHugeIndex.steps = 36893488147419103232
      ∧ ((Get_GEP_Constant_Offset gepHugeIndex sampleLayout 7).2 : Int)
          ≠ layoutOffset sampleLayout gepHugeIndex.steps) := by
  decide

/-- C4 (amended): for every address computation whose index chain has only
constant indices (typed as the IR requires), with `W` the accumulator width (the
allocation size in bits of the value's type) and `S` the exact layout offset,
whenever `S mod 2^W` needs at most 64 bits the function returns true and writes
`S mod 2^W`; the value written equals `S` exactly when `0 <= S < 2^W`. -/
theorem constant_chain_folds_modulo_width {Ty : Type} (ty : Ty) (steps : List (GEPStep Ty))
    (dl : DataLayout Ty) (result : Nat)
    (hc : allConstant steps = true) (hw : wellTypedChain steps = true)
    (hfirst : ∀ STy, dl.getElementOffset STy 0 = 0)
    (hfit : layoutOffset dl steps
        % (2 : Int) ^ offsetBitWidth dl (Value.GEPOperator ty steps) < 2 ^ 64) :
    Get_GEP_Constant_Offset (Value.GEPOperator ty steps) dl result
        = (true, (layoutOffset dl steps
            % (2 : Int) ^ offsetBitWidth dl (Value.GEPOperator ty steps)).toNat)
    ∧ ((((layoutOffset dl steps
            % (2 : Int) ^ offsetBitWidth dl (Value.GEPOperator ty steps)).toNat : Nat) : Int)
          = layoutOffset dl steps
        ↔ (0 ≤ layoutOffset dl steps
            ∧ layoutOffset dl steps
                < (2 : Int) ^ offsetBitWidth dl (Value.GEPOperator ty steps))) := by
  have hpos : (0 : Int) < (2 : Int) ^ offsetBitWidth dl (Value.GEPOperator ty steps) := by
    positivity
  have hnn := Int.emod_nonneg (layoutOffset dl steps) (ne_of_gt hpos)
  have hlt := Int.emod_lt_of_pos (layoutOffset dl steps) hpos
  refine ⟨?_, ?_⟩
  · have hfold : foldable dl (Value.GEPOperator ty steps) = true := by
      simp only [foldable, hc, Bool.true_and, decide_eq_true_eq]
      exact hfit
    rw [Get_GEP_Constant_Offset_eq (Value.GEPOperator ty steps) dl result hw hfirst,
      if_pos hfold]
    rfl
  · rw [Int.toNat_of_nonneg hnn]
    constructor
    · intro h
      rw [h] at hnn hlt
      exact ⟨hnn, hlt⟩
    · rintro ⟨h0, h1⟩
      exact Int.emod_eq_of_lt h0 h1

theorem constant_chain_folds_modulo_width_witness :
    allConstant gepFieldOfElement.steps = true
    ∧ wellTypedChain gepFieldOfElement.steps = true
    ∧ (∀ STy, sampleLayout.getElementOffset STy 0 = 0)
    ∧ layoutOffset sampleLayout gepFieldOfElement.steps = 56
    ∧ Get_GEP_Constant_Offset gepFieldOfElement sampleLayout 0 = (true, 56) :=
  ⟨by decide, by decide, fun _ => rfl, by decide,
    (constant_chain_folds_modulo_width SampleTy.ptr gepFieldOfElement.steps sampleLayout 0
      (by decide) (by decide) (fun _ => rfl) (by decide)).1⟩

/-- C5 (claim as stated fails): `getelementptr pair, ptr p, i64 2^61` has the
layout offset `2^65`, which does not fit in 64 bits, yet the function returns
true and overwrites the output location (holding 7 before the call) with 0. -/
theorem oversized_offset_not_rejected :
    (2 : Int) ^ 64 ≤ layoutOffset sampleLayout gepHugePairIndex.steps
    ∧ Get_GEP_Constant_Offset gepHugePairIndex sampleLayout 7 = (true, 0)
    ∧ Get_GEP_Constant_Offset gepHugePairIndex sampleLayout 7 ≠ (false, 7) := by
  decide

/-- C5 (amended): for every value (its index chain typed as the IR requires), the
function returns true exactly when the value is an address computation, every
index is a compile-time constant, and the layout offset reduced modulo `2^W`
(`W` the accumulator width) needs at most 64 bits, and it then writes that reduced
offset; in every other case it returns false and leaves the output location
unchanged.  The function is total: there is no other outcome. -/
theorem fold_constant_offset_outcomes {Ty : Type} (GEP : Value Ty) (dl : DataLayout Ty)
    (result : Nat) (hw : wellTypedChain GEP.steps = true)
    (hfirst : ∀ STy, dl.getElementOffset STy 0 = 0) :
    Get_GEP_Constant_Offset GEP dl result
        = (if foldable dl GEP = true then (true, wrappedOffset dl GEP) else (false, result))
    ∧ (foldable dl GEP = true
        ↔ ∃ (ty : Ty) (steps : List (GEPStep Ty)), GEP = Value.GEPOperator ty steps
            ∧ allConstant steps = true
            ∧ layoutOffset dl steps % (2 : Int) ^ offsetBitWidth dl GEP < 2 ^ 64)
    ∧ ((Get_GEP_Constant_Offset GEP dl result).1 = true
        ∨ Get_GEP_Constant_Offset GEP dl result = (false, result)) := by
  have heq := Get_GEP_Constant_Offset_eq GEP dl result hw hfirst
  refine ⟨heq, foldable_iff GEP dl, ?_⟩
  rw [heq]
  by_cases hf : foldable dl GEP = true
  · left; rw [if_pos hf]
  · right; rw [if_neg hf]

theorem fold_constant_offset_outcomes_witness :
    wellTypedChain (Value.Other SampleTy.i64).steps = true
    ∧ (∀ STy, sampleLayout.getElementOffset STy 0 = 0)
    ∧ Get_GEP_Constant_Offset (Value.Other SampleTy.i64) sampleLayout 7 = (false, 7) :=
  ⟨by decide, fun _ => rfl,
    (fold_constant_offset_outcomes (Value.Other SampleTy.i64) sampleLayout 7 (by decide)
      (fun _ => rfl)).1⟩

/-! ## Theorems: exact floating-point helpers -/

theorem oneBasedMSB_zero (k : Nat) : oneBasedMSB 0 k = 0 := by
  induction k with
  | zero => rfl
  | succ k ih =>
    unfold oneBasedMSB
    have : ¬ (2 ^ k ≤ 0) := by
      have : 0 < 2 ^ k := by positivity
      omega
    rw [if_neg this, ih]

theorem oneBasedMSB_eq_of_bounds (v n : Nat) (h1 : 2 ^ n ≤ v) (h2 : v < 2 ^ (n + 1)) :
    ∀ k : Nat, n + 1 ≤ k → oneBasedMSB v k = n + 1 := by
  intro k
  induction k with
  | zero => intro h; omega
  | succ k ih =>
    intro hk
    unfold oneBasedMSB
    by_cases hle : 2 ^ k ≤ v
    · rw [if_pos hle]
      have hlt : 2 ^ k < 2 ^ (n + 1) := lt_of_le_of_lt hle h2
      have : k < n + 1 := (Nat.pow_lt_pow_iff_right (by decide)).1 hlt
      omega
    · rw [if_neg hle]
      have hlt : 2 ^ n < 2 ^ k := lt_of_le_of_lt h1 (by omega)
      have : n < k := (Nat.pow_lt_pow_iff_right (by decide)).1 hlt
      exact ih (by omega)

theorem oneBasedMSB_eq_size (v k : Nat) (h : v < 2 ^ k) : oneBasedMSB v k = Nat.size v := by
  by_cases hv : v = 0
  · subst hv
    rw [oneBasedMSB_zero, Nat.size_zero]
  · have hpos : 0 < Nat.size v := Nat.size_pos.2 (Nat.pos_of_ne_zero hv)
    obtain ⟨n, hn⟩ : ∃ n, Nat.size v = n + 1 := ⟨Nat.size v - 1, by omega⟩
    have h1 : 2 ^ n ≤ v := Nat.lt_size.1 (by omega)
    have h2 : v < 2 ^ (n + 1) := by rw [← hn]; exact Nat.lt_size_self v
    have hk : n + 1 ≤ k := by
      rw [← hn]; exact Nat.size_le.2 h
    rw [hn]
    exact oneBasedMSB_eq_of_bounds v n h1 h2 k hk

theorem omsb_eq_size (x : IEEEFloat)
    (hcap : x.significand < 2 ^ (integerPartWidth * x.semantics.partCount)) :
    x.omsb = Nat.size x.significand :=
  oneBasedMSB_eq_size _ _ hcap

theorem normalizeRound_towardZero (x : IEEEFloat) (lf : lostFraction) (omsb : Nat)
    (hp : 0 < x.semantics.precision) :
    x.normalizeRound roundingMode.rmTowardZero lf omsb
      = if omsb = 0 then { x with category := fltCategory.fcZero } else x := by
  unfold IEEEFloat.normalizeRound IEEEFloat.roundAwayFromZero
  by_cases h0 : omsb = 0
  · have hne : ¬ (0 = x.semantics.precision) := by omega
    by_cases hl : lf = lostFraction.lfExactlyZero
    · simp [h0, hl]
    · simp [h0, hl, hne]
  · by_cases hl : lf = lostFraction.lfExactlyZero
    · simp [h0, hl]
    · simp [h0, hl]

theorem normalize_left (x : IEEEFloat) (rm : roundingMode) (lf : lostFraction)
    (hcat : x.category = fltCategory.fcNormal) (hs : 0 < x.significand)
    (hcap : x.significand < 2 ^ (integerPartWidth * x.semantics.partCount))
    (hov : x.exponent + ((Nat.size x.significand : Int) - (x.semantics.precision : Int))
      ≤ x.semantics.maxExponent)
    (bits : Nat) (hbits : 0 < bits)
    (hch : max ((Nat.size x.significand : Int) - (x.semantics.precision : Int))
      (x.semantics.minExponent - x.exponent) = -(bits : Int)) :
    x.normalize rm lf
      = { x with significand := x.significand * 2 ^ bits, exponent := x.exponent - bits } := by
  have hsz : 0 < Nat.size x.significand := Nat.size_pos.2 hs
  have homsb := omsb_eq_size x hcap
  obtain ⟨sem, s, e, cat, sg⟩ := x
  simp only at hcat hs hcap hov hsz homsb hch
  subst hcat
  unfold IEEEFloat.normalize
  simp only [IEEEFloat.isFiniteNonZero, decide_True, Bool.not_true, homsb]
  rw [if_neg (by simp), if_pos (by omega), if_neg (by omega)]
  have hchange : (if e + ((Nat.size s : Int) - (sem.precision : Int)) < sem.minExponent
      then sem.minExponent - e
      else (Nat.size s : Int) - (sem.precision : Int)) = -(bits : Int) := by
    rw [← hch]
    split
    · rw [max_eq_right (by omega)]
    · rw [max_eq_left (by omega)]
  simp only [hchange]
  rw [if_pos (by omega)]
  have : (-(-(bits : Int))).toNat = bits := by simp
  rw [this]
  unfold IEEEFloat.shiftSignificandLeft
  rw [if_pos (by omega)]

theorem normalize_towardZero_right (x : IEEEFloat) (lf : lostFraction)
    (hcat : x.category = fltCategory.fcNormal) (hs : 0 < x.significand)
    (hcap : x.significand < 2 ^ (integerPartWidth * x.semantics.partCount))
    (hp : 0 < x.semantics.precision)
    (hov : x.exponent + ((Nat.size x.significand : Int) - (x.semantics.precision : Int))
      ≤ x.semantics.maxExponent)
    (bits : Nat)
    (hch : max ((Nat.size x.significand : Int) - (x.semantics.precision : Int))
      (x.semantics.minExponent - x.exponent) = (bits : Int)) :
    x.normalize roundingMode.rmTowardZero lf
      = if x.significand / 2 ^ bits = 0 then
          { x with significand := x.significand / 2 ^ bits, exponent := x.exponent + bits,
                   category := fltCategory.fcZero }
        else
          { x with significand := x.significand / 2 ^ bits, exponent := x.exponent + bits } := by
  have hsz : 0 < Nat.size x.significand := Nat.size_pos.2 hs
  have homsb := omsb_eq_size x hcap
  obtain ⟨sem, s, e, cat, sg⟩ := x
  simp only at hcat hs hcap hov hsz homsb hch hp
  subst hcat
  unfold IEEEFloat.normalize
  simp only [IEEEFloat.isFiniteNonZero, decide_True, Bool.not_true, homsb]
  rw [if_neg (by simp), if_pos (by omega), if_neg (by omega)]
  have hchange : (if e + ((Nat.size s : Int) - (sem.precision : Int)) < sem.minExponent
      then sem.minExponent - e
      else (Nat.size s : Int) - (sem.precision : Int)) = (bits : Int) := by
    rw [← hch]
    split
    · rw [max_eq_right (by omega)]
    · rw [max_eq_left (by omega)]
  simp only [hchange]
  rw [if_neg (by omega)]
  by_cases hb : bits = 0
  · subst hb
    rw [if_neg (by simp)]
    rw [normalizeRound_towardZero _ _ _ hp, if_neg (by omega)]
    have : s / 2 ^ 0 ≠ 0 := by simp; omega
    rw [if_neg this]
    simp
  · rw [if_pos (by omega)]
    rw [normalizeRound_towardZero _ _ _ (by simpa [IEEEFloat.shiftSignificandRight] using hp)]
    simp only [Int.toNat_ofNat, IEEEFloat.shiftSignificandRight]
    have hiff : (if (Nat.size s : Int) > (bits : Int)
        then Nat.size s - bits else 0) = 0 ↔ s / 2 ^ bits = 0 := by
      rw [Nat.div_eq_zero_iff (by positivity)]
      constructor
      · intro h
        split at h
        · omega
        · rename_i hn
          exact Nat.size_le.1 (by omega)
      · intro h
        have := Nat.size_le.2 h
        split
        · omega
        · rfl
    by_cases hz : s / 2 ^ bits = 0
    · rw [if_pos (hiff.2 hz), if_pos hz]
    · rw [if_neg (fun h => hz (hiff.1 h)), if_neg hz]

theorem le_capacity (bits : Nat) : bits ≤ integerPartWidth * partCountForBits bits := by
  simp only [integerPartWidth, partCountForBits]
  omega

theorem significand_capacity (sem : fltSemantics) (s : Nat) (h : s < 2 ^ sem.precision) :
    s < 2 ^ (integerPartWidth * sem.partCount) := by
  have h1 : sem.precision ≤ integerPartWidth * sem.partCount := by
    have := le_capacity (sem.precision + 1)
    unfold fltSemantics.partCount
    omega
  exact lt_of_lt_of_le h (Nat.pow_le_pow_right (by decide) h1)

theorem size_eq_of_bounds (v k : Nat) (h1 : 2 ^ k ≤ v) (h2 : v < 2 ^ (k + 1)) :
    Nat.size v = k + 1 :=
  le_antisymm (Nat.size_le.2 h2) (Nat.lt_size.2 h1)

theorem size_bounds (v : Nat) (hv : 0 < v) :
    2 ^ (Nat.size v - 1) ≤ v ∧ v < 2 ^ Nat.size v := by
  have hpos : 0 < Nat.size v := Nat.size_pos.2 hv
  exact ⟨Nat.lt_size.1 (by omega), Nat.lt_size_self v⟩

theorem two_zpow_pos (z : Int) : (0 : ℚ) < (2 : ℚ) ^ z := zpow_pos (by norm_num) z

theorem two_zpow_add_nat (q : Int) (j : Nat) :
    (2 : ℚ) ^ (q + (j : Int)) = (2 : ℚ) ^ q * ((2 ^ j : Nat) : ℚ) := by
  rw [zpow_add₀ (by norm_num : (2 : ℚ) ≠ 0), zpow_natCast]
  push_cast
  rfl

theorem two_zpow_mono {a b : Int} (h : a ≤ b) : (2 : ℚ) ^ a ≤ (2 : ℚ) ^ b :=
  zpow_le_zpow_right₀ (by norm_num) h

theorem natCast_lt_two_zpow (m p : Nat) (h : m < 2 ^ p) : (m : ℚ) < (2 : ℚ) ^ (p : Int) := by
  rw [zpow_natCast]
  exact_mod_cast h

theorem two_zpow_le_natCast (k p : Nat) (h : 2 ^ p ≤ k) : (2 : ℚ) ^ (p : Int) ≤ (k : ℚ) := by
  rw [zpow_natCast]
  exact_mod_cast h

/-- No value of the format lies strictly between two neighbouring multiples
`k * 2^q` and `(k+1) * 2^q` of a quantum `2^q` that is the smallest one, or that
belongs to a significand `k` with its integer bit set. -/
theorem no_value_in_gap (p : Nat) (emin : Int) (k m : Nat) (q e : Int)
    (hk : q = emin - (p : Int) + 1 ∨ 2 ^ (p - 1) ≤ k)
    (hm : m < 2 ^ p) (he : emin ≤ e)
    (hlt : (k : ℚ) * (2 : ℚ) ^ q < (m : ℚ) * (2 : ℚ) ^ (e - (p : Int) + 1)) :
    ((k : ℚ) + 1) * (2 : ℚ) ^ q ≤ (m : ℚ) * (2 : ℚ) ^ (e - (p : Int) + 1) := by
  have hpos := two_zpow_pos q
  by_cases hle : q ≤ e - (p : Int) + 1
  · obtain ⟨j, hj⟩ : ∃ j : Nat, e - (p : Int) + 1 = q + (j : Int) :=
      ⟨(e - (p : Int) + 1 - q).toNat, by omega⟩
    rw [hj, two_zpow_add_nat] at hlt ⊢
    have h1 : (k : ℚ) * (2 : ℚ) ^ q < ((m * 2 ^ j : Nat) : ℚ) * (2 : ℚ) ^ q := by
      push_cast
      calc (k : ℚ) * (2 : ℚ) ^ q < (m : ℚ) * ((2 : ℚ) ^ q * ((2 ^ j : Nat) : ℚ)) := hlt
        _ = (m : ℚ) * 2 ^ j * (2 : ℚ) ^ q := by push_cast; ring
    have h2 : (k : ℚ) < ((m * 2 ^ j : Nat) : ℚ) := lt_of_mul_lt_mul_right h1 hpos.le
    have h3 : k < m * 2 ^ j := by exact_mod_cast h2
    have h4 : (k : ℚ) + 1 ≤ ((m * 2 ^ j : Nat) : ℚ) := by exact_mod_cast h3
    calc ((k : ℚ) + 1) * (2 : ℚ) ^ q ≤ ((m * 2 ^ j : Nat) : ℚ) * (2 : ℚ) ^ q :=
          mul_le_mul_of_nonneg_right h4 hpos.le
      _ = (m : ℚ) * ((2 : ℚ) ^ q * ((2 ^ j : Nat) : ℚ)) := by push_cast; ring
  · exfalso
    have hk2 : 2 ^ (p - 1) ≤ k := by
      rcases hk with h | h
      · omega
      · exact h
    have hq1pos := two_zpow_pos (e - (p : Int) + 1)
    have h1 : (m : ℚ) * (2 : ℚ) ^ (e - (p : Int) + 1)
        < (2 : ℚ) ^ (p : Int) * (2 : ℚ) ^ (e - (p : Int) + 1) :=
      mul_lt_mul_of_pos_right (natCast_lt_two_zpow m p hm) hq1pos
    have h2 : (2 : ℚ) ^ (p : Int) * (2 : ℚ) ^ (e - (p : Int) + 1)
        ≤ (2 : ℚ) ^ ((p - 1 : Nat) : Int) * (2 : ℚ) ^ q := by
      rw [← zpow_add₀ (by norm_num : (2 : ℚ) ≠ 0), ← zpow_add₀ (by norm_num : (2 : ℚ) ≠ 0)]
      exact two_zpow_mono (by omega)
    have h3 : (2 : ℚ) ^ ((p - 1 : Nat) : Int) * (2 : ℚ) ^ q ≤ (k : ℚ) * (2 : ℚ) ^ q :=
      mul_le_mul_of_nonneg_right (two_zpow_le_natCast k (p - 1) hk2) hpos.le
    linarith

theorem representable_nonneg (sem : fltSemantics) (r : ℚ) (h : sem.representable r)
    (h0 : 0 ≤ r) :
    ∃ (m : Nat) (e : Int), m < 2 ^ sem.precision ∧ sem.minExponent ≤ e
      ∧ e ≤ sem.maxExponent
      ∧ r = (m : ℚ) * (2 : ℚ) ^ (e - (sem.precision : Int) + 1) := by
  obtain ⟨m, e, h1, h2, h3, h4⟩ := h
  rw [abs_of_nonneg h0] at h4
  exact ⟨m, e, h1, h2, h3, h4⟩

theorem representable_of_form (sem : fltSemantics) (m : Nat) (e : Int)
    (h1 : m < 2 ^ sem.precision) (h2 : sem.minExponent ≤ e) (h3 : e ≤ sem.maxExponent) :
    sem.representable ((m : ℚ) * (2 : ℚ) ^ (e - (sem.precision : Int) + 1)) := by
  refine ⟨m, e, h1, h2, h3, ?_⟩
  exact abs_of_nonneg (mul_nonneg (Nat.cast_nonneg m) (two_zpow_pos _).le)

theorem representable_neg (sem : fltSemantics) (r : ℚ) (h : sem.representable r) :
    sem.representable (-r) := by
  obtain ⟨m, e, h1, h2, h3, h4⟩ := h
  exact ⟨m, e, h1, h2, h3, by rw [abs_neg]; exact h4⟩

theorem valid_iff (sem : fltSemantics) :
    sem.valid = true ↔ 2 ≤ sem.precision ∧ sem.minExponent ≤ 0 ∧ 1 ≤ sem.maxExponent := by
  simp [fltSemantics.valid, and_assoc]

theorem toRat_of_zero (x : IEEEFloat) (h : x.category = fltCategory.fcZero) : x.toRat = 0 := by
  unfold IEEEFloat.toRat
  rw [h]

theorem ofIntegerPart_one (sem : fltSemantics) (hp : 2 ≤ sem.precision)
    (hmin : sem.minExponent ≤ 0) (hmax : 0 ≤ sem.maxExponent) :
    IEEEFloat.ofIntegerPart sem 1
      = { semantics := sem, significand := 2 ^ (sem.precision - 1), exponent := 0,
          category := fltCategory.fcNormal, sign := false } := by
  unfold IEEEFloat.ofIntegerPart
  have h1 : ((1 : uint64_t).val) = 1 := rfl
  rw [h1]
  have hsz : Nat.size 1 = 1 := Nat.size_one
  rw [normalize_left _ _ _ rfl (by simp) (significand_capacity sem 1 (by
      have : 2 ^ 0 < 2 ^ sem.precision := Nat.pow_lt_pow_right (by decide) (by omega)
      simpa using this))
    (by simp only [hsz]; push_cast; omega) (sem.precision - 1) (by omega)
    (by simp only [hsz]; rw [max_eq_left (by push_cast; omega)]; push_cast; omega)]
  simp only [one_mul]
  congr 1
  omega

theorem size_mul_two_pow (s j : Nat) (hs : 0 < s) : Nat.size (s * 2 ^ j) = Nat.size s + j := by
  obtain ⟨h1, h2⟩ := size_bounds s hs
  have hn : 0 < Nat.size s := Nat.size_pos.2 hs
  have := size_eq_of_bounds (s * 2 ^ j) (Nat.size s - 1 + j)
    (by rw [pow_add]; exact Nat.mul_le_mul_right _ h1)
    (by
      have : Nat.size s - 1 + j + 1 = Nat.size s + j := by omega
      rw [this, pow_add]
      exact Nat.mul_lt_mul_of_pos_right h2 (by positivity))
  omega

theorem multiply_one_eq (sem : fltSemantics) (s : Nat) (e : Int) (sg : Bool)
    (hp : 2 ≤ sem.precision) (hs0 : 0 < s) (hs2 : s < 2 ^ sem.precision)
    (he1 : sem.minExponent ≤ e) (he2 : e ≤ sem.maxExponent) (t c : Nat)
    (ht : sem.precision - Nat.size s = t)
    (hc : (c : Int) = max 0 (sem.minExponent - (e - (t : Int)))) :
    IEEEFloat.multiply
        { semantics := sem, significand := s, exponent := e,
          category := fltCategory.fcNormal, sign := sg }
        { semantics := sem, significand := 2 ^ (sem.precision - 1), exponent := 0,
          category := fltCategory.fcNormal, sign := false }
        roundingMode.rmTowardZero
      = { semantics := sem, significand := s * 2 ^ (t - c),
          exponent := e - (t : Int) + (c : Int),
          category := fltCategory.fcNormal, sign := sg } := by
  obtain ⟨hlo, hhi⟩ := size_bounds s hs0
  have hn : 0 < Nat.size s := Nat.size_pos.2 hs0
  have hnp : Nat.size s ≤ sem.precision := Nat.size_le.2 hs2
  have hct : c ≤ t := by
    have : max 0 (sem.minExponent - (e - (t : Int))) ≤ (t : Int) := max_le (by omega) (by omega)
    omega
  have hfull : s * 2 ^ (sem.precision - 1) = s * 2 ^ t * 2 ^ (Nat.size s - 1) := by
    rw [mul_assoc, ← pow_add]
    congr 2
    omega
  have hst_lt : s * 2 ^ t < 2 ^ sem.precision := by
    have : sem.precision = Nat.size s + t := by omega
    rw [this, pow_add]
    exact Nat.mul_lt_mul_of_pos_right hhi (by positivity)
  have hst_pos : 0 < s * 2 ^ t := by positivity
  have hst_size : Nat.size (s * 2 ^ t) = sem.precision := by
    rw [size_mul_two_pow s t hs0]; omega
  have hcapfull : s * 2 ^ (sem.precision - 1)
      < 2 ^ (integerPartWidth * partCountForBits (sem.precision * 2 + 1)) := by
    have h1 : s * 2 ^ (sem.precision - 1) < 2 ^ (sem.precision + (sem.precision - 1)) := by
      rw [pow_add]
      exact Nat.mul_lt_mul_of_pos_right hs2 (by positivity)
    exact lt_of_lt_of_le h1 (Nat.pow_le_pow_right (by decide)
      (le_trans (by omega) (le_capacity (sem.precision * 2 + 1))))
  have hmulsig : (IEEEFloat.multiplySignificand
        { semantics := sem, significand := s, exponent := e,
          category := fltCategory.fcNormal, sign := sg }
        { semantics := sem, significand := 2 ^ (sem.precision - 1), exponent := 0,
          category := fltCategory.fcNormal, sign := false }).1
      = { semantics := sem, significand := s * 2 ^ t, exponent := e - (t : Int),
          category := fltCategory.fcNormal, sign := sg } := by
    unfold IEEEFloat.multiplySignificand
    simp only [oneBasedMSB_eq_size _ _ hcapfull, size_mul_two_pow s _ hs0]
    by_cases hgt : Nat.size s + (sem.precision - 1) > sem.precision
    · rw [if_pos hgt]
      have hbits : Nat.size s + (sem.precision - 1) - sem.precision = Nat.size s - 1 := by
        omega
      simp only [hbits]
      rw [hfull, Nat.mul_div_cancel _ (by positivity),
        Nat.mod_eq_of_lt (significand_capacity sem _ hst_lt)]
      congr 1
      omega
    · rw [if_neg hgt]
      have hn1 : Nat.size s = 1 := by omega
      have ht1 : sem.precision - 1 = t := by omega
      simp only
      rw [ht1, Nat.mod_eq_of_lt (significand_capacity sem _ hst_lt)]
      congr 1
      omega
  have hdiv : s * 2 ^ t / 2 ^ c = s * 2 ^ (t - c) := by
    have : 2 ^ t = 2 ^ (t - c) * 2 ^ c := by
      rw [← pow_add]; congr 1; omega
    rw [this, ← mul_assoc, Nat.mul_div_cancel _ (by positivity)]
  unfold IEEEFloat.multiply
  simp only [Bool.xor_false, IEEEFloat.multiplySpecials, IEEEFloat.isFiniteNonZero,
    decide_True, if_true]
  rw [hmulsig]
  rw [normalize_towardZero_right _ _ rfl hst_pos (significand_capacity sem _ hst_lt)
    (by simp only; omega) (by simp only [hst_size]; omega) c (by
      simp only [hst_size]
      rw [hc]
      simp)]
  simp only [hdiv]
  rw [if_neg (by positivity)]

theorem multiply_one_canonical (sem : fltSemantics) (s : Nat) (e : Int) (sg : Bool)
    (hp : 2 ≤ sem.precision) (hs0 : 0 < s) (hs2 : s < 2 ^ sem.precision)
    (he1 : sem.minExponent ≤ e) (he2 : e ≤ sem.maxExponent)
    (hcan : 2 ^ (sem.precision - 1) ≤ s ∨ e = sem.minExponent) :
    IEEEFloat.multiply
        { semantics := sem, significand := s, exponent := e,
          category := fltCategory.fcNormal, sign := sg }
        { semantics := sem, significand := 2 ^ (sem.precision - 1), exponent := 0,
          category := fltCategory.fcNormal, sign := false }
        roundingMode.rmTowardZero
      = { semantics := sem, significand := s, exponent := e,
          category := fltCategory.fcNormal, sign := sg } := by
  have hnp : Nat.size s ≤ sem.precision := Nat.size_le.2 hs2
  have hc : ((sem.precision - Nat.size s : Nat) : Int)
      = max 0 (sem.minExponent - (e - ((sem.precision - Nat.size s : Nat) : Int))) := by
    rcases hcan with h | h
    · have : sem.precision - 1 < Nat.size s := Nat.lt_size.2 h
      have ht0 : sem.precision - Nat.size s = 0 := by omega
      rw [ht0, max_eq_left (by push_cast; omega)]
      rfl
    · rw [h, max_eq_right (by omega)]
      omega
  rw [multiply_one_eq sem s e sg hp hs0 hs2 he1 he2 _ _ rfl hc]
  simp

theorem canonical_normal_iff (sem : fltSemantics) (s : Nat) (e : Int) (sg : Bool) :
    IEEEFloat.canonical sem
        { semantics := sem, significand := s, exponent := e,
          category := fltCategory.fcNormal, sign := sg } = true
      ↔ (0 < s ∧ s < 2 ^ sem.precision ∧ sem.minExponent ≤ e ∧ e ≤ sem.maxExponent
          ∧ (2 ^ (sem.precision - 1) ≤ s ∨ e = sem.minExponent)) := by
  simp [IEEEFloat.canonical, and_assoc]

theorem multiply_one_renormalizes (sem : fltSemantics) (s : Nat) (e : Int) (sg : Bool)
    (hp : 2 ≤ sem.precision) (hs0 : 0 < s) (hs2 : s < 2 ^ sem.precision)
    (he1 : sem.minExponent ≤ e) (he2 : e ≤ sem.maxExponent) :
    IEEEFloat.canonical sem
        (IEEEFloat.multiply
          { semantics := sem, significand := s, exponent := e,
            category := fltCategory.fcNormal, sign := sg }
          { semantics := sem, significand := 2 ^ (sem.precision - 1), exponent := 0,
            category := fltCategory.fcNormal, sign := false }
          roundingMode.rmTowardZero) = true
    ∧ IEEEFloat.toRat
        (IEEEFloat.multiply
          { semantics := sem, significand := s, exponent := e,
            category := fltCategory.fcNormal, sign := sg }
          { semantics := sem, significand := 2 ^ (sem.precision - 1), exponent := 0,
            category := fltCategory.fcNormal, sign := false }
          roundingMode.rmTowardZero)
      = IEEEFloat.toRat
          { semantics := sem, significand := s, exponent := e,
            category := fltCategory.fcNormal, sign := sg } := by
  obtain ⟨hlo, hhi⟩ := size_bounds s hs0
  have hn : 0 < Nat.size s := Nat.size_pos.2 hs0
  have hnp : Nat.size s ≤ sem.precision := Nat.size_le.2 hs2
  obtain ⟨t, ht⟩ : ∃ t : Nat, sem.precision - Nat.size s = t := ⟨_, rfl⟩
  obtain ⟨c, hc⟩ : ∃ c : Nat, (c : Int) = max 0 (sem.minExponent - (e - (t : Int))) :=
    ⟨(max 0 (sem.minExponent - (e - (t : Int)))).toNat, by
      rw [Int.toNat_of_nonneg (le_max_left _ _)]⟩
  have hct : c ≤ t := by
    have : max 0 (sem.minExponent - (e - (t : Int))) ≤ (t : Int) := max_le (by omega) (by omega)
    omega
  have hst_lt : s * 2 ^ t < 2 ^ sem.precision := by
    have : sem.precision = Nat.size s + t := by omega
    rw [this, pow_add]
    exact Nat.mul_lt_mul_of_pos_right hhi (by positivity)
  have hst_ge : 2 ^ (sem.precision - 1) ≤ s * 2 ^ t := by
    have : sem.precision - 1 = (Nat.size s - 1) + t := by omega
    rw [this, pow_add]
    exact Nat.mul_le_mul_right _ hlo
  rw [multiply_one_eq sem s e sg hp hs0 hs2 he1 he2 t c ht hc]
  constructor
  · rw [canonical_normal_iff]
    refine ⟨by positivity, ?_, by omega, by omega, ?_⟩
    · exact lt_of_le_of_lt
        (Nat.mul_le_mul_left s (Nat.pow_le_pow_right (by decide) (Nat.sub_le t c))) hst_lt
    · by_cases hc0 : c = 0
      · left
        subst hc0
        simpa using hst_ge
      · right
        have : (c : Int) = sem.minExponent - (e - (t : Int)) := by
          rcases max_cases (0 : Int) (sem.minExponent - (e - (t : Int))) with h | h
          · omega
          · omega
        omega
  · simp only [IEEEFloat.toRat]
    have hz : e - (sem.precision : Int) + 1
        = (e - (t : Int) + (c : Int) - (sem.precision : Int) + 1) + ((t - c : Nat) : Int) := by
      omega
    rw [hz, two_zpow_add_nat]
    push_cast
    ring

theorem size_eq_one_iff (s : Nat) : Nat.size s = 1 ↔ s = 1 := by
  constructor
  · intro h
    have h1 : s < 2 ^ 1 := Nat.size_le.1 (by omega)
    have h2 : 0 < s := Nat.size_pos.1 (by omega)
    omega
  · intro h
    rw [h]
    exact Nat.size_one

theorem testBit_integer_bit (s p : Nat) (hp : 0 < p) (hs : s < 2 ^ p) :
    s.testBit (p - 1) = decide (2 ^ (p - 1) ≤ s) := by
  by_cases h : 2 ^ (p - 1) ≤ s
  · have hdiv : s / 2 ^ (p - 1) = 1 := by
      have hpp : 2 ^ p = 2 ^ (p - 1) * 2 := by
        rw [← pow_succ]; congr 1; omega
      apply Nat.div_eq_of_lt_le
      · simpa using h
      · rw [hpp] at hs
        simpa [Nat.mul_comm] using hs
    rw [Nat.testBit_to_div_mod, hdiv]
    simp [h]
  · rw [Nat.testBit_lt_two_pow (by omega)]
    simp [h]

theorem next_down_zero (x : IEEEFloat) (h : x.category = fltCategory.fcZero) :
    x.nextExact true
      = { semantics := x.semantics, significand := 1, exponent := x.semantics.minExponent,
          category := fltCategory.fcNormal, sign := true } := by
  unfold IEEEFloat.nextExact
  simp [IEEEFloat.changeSign, h, IEEEFloat.makeSmallest]

theorem next_down_smallest (sem : fltSemantics) (hp : 0 < sem.precision) :
    IEEEFloat.nextExact
        { semantics := sem, significand := 1, exponent := sem.minExponent,
          category := fltCategory.fcNormal, sign := false } true
      = { semantics := sem, significand := 0, exponent := 0,
          category := fltCategory.fcZero, sign := false } := by
  have hcap : (1 : Nat) < 2 ^ (integerPartWidth * sem.partCount) :=
    significand_capacity sem 1 (by
      have : 2 ^ 0 < 2 ^ sem.precision := Nat.pow_lt_pow_right (by decide) hp
      simpa using this)
  have homsb : IEEEFloat.omsb
      { semantics := sem, significand := 1, exponent := sem.minExponent,
        category := fltCategory.fcNormal, sign := true } = 1 := by
    rw [omsb_eq_size _ hcap]
    exact Nat.size_one
  unfold IEEEFloat.nextExact
  simp [IEEEFloat.changeSign, IEEEFloat.isSmallest, IEEEFloat.isFiniteNonZero, homsb]

theorem next_down_positive (sem : fltSemantics) (s : Nat) (e : Int)
    (hs2 : s < 2 ^ sem.precision) (hns : ¬ (s = 1 ∧ e = sem.minExponent)) :
    IEEEFloat.nextExact
        { semantics := sem, significand := s, exponent := e,
          category := fltCategory.fcNormal, sign := false } true
      = if e ≠ sem.minExponent ∧ s % 2 ^ (sem.precision - 1) = 0 then
          { semantics := sem, significand := (s - 1) ||| 2 ^ (sem.precision - 1),
            exponent := e - 1, category := fltCategory.fcNormal, sign := false }
        else
          { semantics := sem, significand := s - 1, exponent := e,
            category := fltCategory.fcNormal, sign := false } := by
  have hcap := significand_capacity sem s hs2
  have homsb : IEEEFloat.omsb
      { semantics := sem, significand := s, exponent := e,
        category := fltCategory.fcNormal, sign := true } = Nat.size s :=
    omsb_eq_size _ hcap
  have hsm : IEEEFloat.isSmallest
      { semantics := sem, significand := s, exponent := e,
        category := fltCategory.fcNormal, sign := true } = false := by
    simp only [IEEEFloat.isSmallest, IEEEFloat.isFiniteNonZero, homsb, size_eq_one_iff]
    by_cases h1 : e = sem.minExponent
    · have : ¬ s = 1 := fun h => hns ⟨h, h1⟩
      simp [h1, this]
    · simp [h1]
  unfold IEEEFloat.nextExact
  simp only [IEEEFloat.changeSign, Bool.not_false, if_true, hsm, Bool.false_and,
    Bool.not_true, Bool.and_false, IEEEFloat.fractionAllZeros]
  by_cases h1 : e = sem.minExponent
  · simp [h1]
  · by_cases h2 : s % 2 ^ (sem.precision - 1) = 0
    · simp [h1, h2]
    · simp [h1, h2]

theorem next_down_negative (sem : fltSemantics) (s : Nat) (e : Int)
    (hp : 0 < sem.precision) (hs2 : s < 2 ^ sem.precision)
    (hnl : ¬ (e = sem.maxExponent ∧ s % 2 ^ (sem.precision - 1)
      = 2 ^ (sem.precision - 1) - 1)) :
    IEEEFloat.nextExact
        { semantics := sem, significand := s, exponent := e,
          category := fltCategory.fcNormal, sign := true } true
      = if ¬ (e = sem.minExponent ∧ s < 2 ^ (sem.precision - 1))
            ∧ s % 2 ^ (sem.precision - 1) = 2 ^ (sem.precision - 1) - 1 then
          { semantics := sem, significand := 2 ^ (sem.precision - 1),
            exponent := e + 1, category := fltCategory.fcNormal, sign := true }
        else
          { semantics := sem, significand := s + 1, exponent := e,
            category := fltCategory.fcNormal, sign := true } := by
  have hlg : IEEEFloat.isLargestFinite
      { semantics := sem, significand := s, exponent := e,
        category := fltCategory.fcNormal, sign := false } = false := by
    simp only [IEEEFloat.isLargestFinite, IEEEFloat.isFiniteNonZero, IEEEFloat.fractionAllOnes]
    by_cases h1 : e = sem.maxExponent
    · have : ¬ (s % 2 ^ (sem.precision - 1) = 2 ^ (sem.precision - 1) - 1) :=
        fun h => hnl ⟨h1, h⟩
      simp [h1, this]
    · simp [h1]
  have hden : IEEEFloat.isDenormal
      { semantics := sem, significand := s, exponent := e,
        category := fltCategory.fcNormal, sign := false }
      = decide (e = sem.minExponent ∧ s < 2 ^ (sem.precision - 1)) := by
    simp only [IEEEFloat.isDenormal, IEEEFloat.isFiniteNonZero,
      testBit_integer_bit s sem.precision hp hs2]
    by_cases h1 : e = sem.minExponent <;> by_cases h2 : 2 ^ (sem.precision - 1) ≤ s
    · simp [h1, h2]
    · simp [h1, h2]; omega
    · simp [h1, h2]
    · simp [h1, h2]
  unfold IEEEFloat.nextExact
  simp only [IEEEFloat.changeSign, Bool.not_true, if_true, hlg, Bool.false_and,
    Bool.and_false]
  simp only [IEEEFloat.isSmallest, Bool.and_false, hden, IEEEFloat.fractionAllOnes,
    IEEEFloat.incrementSignificand]
  by_cases h1 : (e = sem.minExponent ∧ s < 2 ^ (sem.precision - 1))
  · simp [h1]
  · by_cases h2 : s % 2 ^ (sem.precision - 1) = 2 ^ (sem.precision - 1) - 1
    · simp [h1, h2]
    · simp [h1, h2]

theorem representable_of_quantum (sem : fltSemantics) (k : Nat) (q : Int)
    (hq : sem.minExponent - (sem.precision : Int) + 1 ≤ q)
    (hk2 : k < 2 ^ sem.precision)
    (hqmax : q + (sem.precision : Int) - 1 ≤ sem.maxExponent) :
    sem.representable ((k : ℚ) * (2 : ℚ) ^ q) := by
  have := representable_of_form sem k (q + (sem.precision : Int) - 1) hk2 (by omega) hqmax
  have he : q + (sem.precision : Int) - 1 - (sem.precision : Int) + 1 = q := by ring
  rw [he] at this
  exact this

theorem isPredecessor_above (sem : fltSemantics) (k : Nat) (q : Int)
    (hq : sem.minExponent - (sem.precision : Int) + 1 ≤ q)
    (hk : q = sem.minExponent - (sem.precision : Int) + 1 ∨ 2 ^ (sem.precision - 1) ≤ k)
    (hk2 : k < 2 ^ sem.precision)
    (hqmax : q + (sem.precision : Int) - 1 ≤ sem.maxExponent) :
    isPredecessor sem (((k : ℚ) + 1) * (2 : ℚ) ^ q) ((k : ℚ) * (2 : ℚ) ^ q) := by
  have hpos := two_zpow_pos q
  refine ⟨representable_of_quantum sem k q hq hk2 hqmax, ?_, ?_⟩
  · nlinarith
  · intro w hw hlt
    by_cases h0 : 0 ≤ w
    · obtain ⟨m, e, hm, he1, _, hr⟩ := representable_nonneg sem w hw h0
      by_contra hcon
      push_neg at hcon
      rw [hr] at hcon hlt
      have := no_value_in_gap sem.precision sem.minExponent k m q e hk hm he1 hcon
      linarith
    · push_neg at h0
      have : (0 : ℚ) ≤ (k : ℚ) * (2 : ℚ) ^ q := mul_nonneg (Nat.cast_nonneg k) hpos.le
      linarith

theorem isPredecessor_below (sem : fltSemantics) (k : Nat) (q : Int)
    (hk : q = sem.minExponent - (sem.precision : Int) + 1 ∨ 2 ^ (sem.precision - 1) ≤ k)
    (hrep : sem.representable (((k : ℚ) + 1) * (2 : ℚ) ^ q)) :
    isPredecessor sem (-((k : ℚ) * (2 : ℚ) ^ q)) (-(((k : ℚ) + 1) * (2 : ℚ) ^ q)) := by
  have hpos := two_zpow_pos q
  refine ⟨representable_neg sem _ hrep, ?_, ?_⟩
  · nlinarith
  · intro w hw hlt
    have hk0 : (0 : ℚ) ≤ (k : ℚ) * (2 : ℚ) ^ q := mul_nonneg (Nat.cast_nonneg k) hpos.le
    have hwneg : 0 ≤ -w := by linarith
    obtain ⟨m, e, hm, he1, _, hr⟩ :=
      representable_nonneg sem (-w) (representable_neg sem w hw) hwneg
    have hlt2 : (k : ℚ) * (2 : ℚ) ^ q < (m : ℚ) * (2 : ℚ) ^ (e - (sem.precision : Int) + 1) := by
      rw [← hr]; linarith
    have := no_value_in_gap sem.precision sem.minExponent k m q e hk hm he1 hlt2
    rw [← hr] at this
    linarith

theorem two_pow_pred_double (p : Nat) (hp : 0 < p) : 2 ^ p = 2 * 2 ^ (p - 1) := by
  have : p = (p - 1) + 1 := by omega
  conv_lhs => rw [this, pow_succ]
  ring

theorem mod_half_of_integer_bit (s p : Nat) (hp : 0 < p) (h1 : 2 ^ (p - 1) ≤ s)
    (h2 : s < 2 ^ p) : s % 2 ^ (p - 1) = s - 2 ^ (p - 1) := by
  have hd := two_pow_pred_double p hp
  rw [Nat.mod_eq_sub_mod h1, Nat.mod_eq_of_lt (by omega)]

theorem mod_two_pow_add (x A B : Nat) :
    x % 2 ^ (A + B) = x % 2 ^ A + 2 ^ A * (x / 2 ^ A % 2 ^ B) := by
  rw [pow_add, Nat.mod_mul]

theorem mod_two_pow_add_all_ones (x A B : Nat) :
    x % 2 ^ (A + B) = 2 ^ (A + B) - 1
      ↔ x % 2 ^ A = 2 ^ A - 1 ∧ x / 2 ^ A % 2 ^ B = 2 ^ B - 1 := by
  have hA : 0 < 2 ^ A := by positivity
  have hB : 0 < 2 ^ B := by positivity
  have h1 : x % 2 ^ A < 2 ^ A := Nat.mod_lt _ hA
  have h2 : x / 2 ^ A % 2 ^ B < 2 ^ B := Nat.mod_lt _ hB
  rw [mod_two_pow_add, pow_add]
  generalize x % 2 ^ A = u at *
  generalize x / 2 ^ A % 2 ^ B = w at *
  generalize 2 ^ A = P at *
  generalize 2 ^ B = Q at *
  constructor
  · intro h
    have hw : w = Q - 1 := by
      by_contra hne
      have hw2 : w + 2 ≤ Q := by omega
      have h3 : P * (w + 2) ≤ P * Q := Nat.mul_le_mul_left P hw2
      rw [Nat.mul_add] at h3
      have hPQ : 0 < P * Q := Nat.mul_pos hA hB
      omega
    subst hw
    refine ⟨?_, rfl⟩
    have hq : P * (Q - 1) + P = P * Q := by
      have : Q - 1 + 1 = Q := by omega
      calc P * (Q - 1) + P = P * (Q - 1 + 1) := by ring
        _ = P * Q := by rw [this]
    have hPQ : 0 < P * Q := Nat.mul_pos hA hB
    omega
  · rintro ⟨hu, hw⟩
    subst hu
    subst hw
    have hq : P * (Q - 1) + P = P * Q := by
      have : Q - 1 + 1 = Q := by omega
      calc P * (Q - 1) + P = P * (Q - 1 + 1) := by ring
        _ = P * Q := by rw [this]
    omega

theorem mod_two_pow_add_zero (x A B : Nat) :
    x % 2 ^ (A + B) = 0 ↔ x % 2 ^ A = 0 ∧ x / 2 ^ A % 2 ^ B = 0 := by
  have hA : 0 < 2 ^ A := by positivity
  rw [mod_two_pow_add]
  constructor
  · intro h
    have h1 : x % 2 ^ A = 0 := by omega
    have h2 : 2 ^ A * (x / 2 ^ A % 2 ^ B) = 0 := by omega
    rcases Nat.mul_eq_zero.1 h2 with h3 | h3
    · omega
    · exact ⟨h1, h3⟩
  · rintro ⟨h1, h2⟩
    rw [h1, h2]
    simp

theorem partCount_of_rem (sem : fltSemantics) (h : 1 ≤ sem.precision % 64) :
    sem.partCount = sem.precision / 64 + 1 := by
  simp only [fltSemantics.partCount, partCountForBits, integerPartWidth]
  omega

theorem last_word_low_bits (x lw k : Nat) (hk : k ≤ 64) :
    (x / 2 ^ lw % 2 ^ 64) % 2 ^ k = x / 2 ^ lw % 2 ^ k :=
  Nat.mod_mod_of_dvd _ (pow_dvd_pow 2 hk)

theorem isSignificandAllOnes_eq (x : IEEEFloat) (h : 1 ≤ x.semantics.precision % 64) :
    x.isSignificandAllOnes = some x.fractionAllOnes := by
  have hpc := partCount_of_rem x.semantics h
  have hnum : (x.semantics.precision / 64 + 1) * 64 - x.semantics.precision + 1
      = 65 - x.semantics.precision % 64 := by omega
  have hsplit : x.semantics.precision - 1
      = 64 * (x.semantics.precision / 64) + (x.semantics.precision % 64 - 1) := by omega
  have hk : 64 - (65 - x.semantics.precision % 64) = x.semantics.precision % 64 - 1 := by
    omega
  have hle : 65 - x.semantics.precision % 64 ≤ 64 := by omega
  simp only [IEEEFloat.isSignificandAllOnes, IEEEFloat.fractionAllOnes, hpc, integerPartWidth,
    Nat.add_sub_cancel, hnum, hk, if_pos hle,
    last_word_low_bits _ _ _ (by omega : x.semantics.precision % 64 - 1 ≤ 64)]
  rw [hsplit]
  by_cases h1 : x.significand % 2 ^ (64 * (x.semantics.precision / 64))
      = 2 ^ (64 * (x.semantics.precision / 64)) - 1
  · simp [h1, mod_two_pow_add_all_ones]
  · simp [h1, mod_two_pow_add_all_ones]

theorem isSignificandAllZeros_eq (x : IEEEFloat) (h : 2 ≤ x.semantics.precision % 64) :
    x.isSignificandAllZeros = some x.fractionAllZeros := by
  have hpc := partCount_of_rem x.semantics (by omega)
  have hnum : (x.semantics.precision / 64 + 1) * 64 - x.semantics.precision + 1
      = 65 - x.semantics.precision % 64 := by omega
  have hsplit : x.semantics.precision - 1
      = 64 * (x.semantics.precision / 64) + (x.semantics.precision % 64 - 1) := by omega
  have hk : 64 - (65 - x.semantics.precision % 64) = x.semantics.precision % 64 - 1 := by
    omega
  have hlt : 65 - x.semantics.precision % 64 < 64 := by omega
  simp only [IEEEFloat.isSignificandAllZeros, IEEEFloat.fractionAllZeros, hpc, integerPartWidth,
    Nat.add_sub_cancel, hnum, hk, if_pos hlt,
    last_word_low_bits _ _ _ (by omega : x.semantics.precision % 64 - 1 ≤ 64)]
  rw [hsplit]
  by_cases h1 : x.significand % 2 ^ (64 * (x.semantics.precision / 64)) = 0
  · simp [h1, mod_two_pow_add_zero]
  · simp [h1, mod_two_pow_add_zero]

theorem isLargest_eq (x : IEEEFloat) (h : 1 ≤ x.semantics.precision % 64) :
    x.isLargest = some x.isLargestFinite := by
  unfold IEEEFloat.isLargest IEEEFloat.isLargestFinite
  by_cases hc : (x.isFiniteNonZero && decide (x.exponent = x.semantics.maxExponent)) = true
  · rw [if_pos hc, isSignificandAllOnes_eq x h, hc]
    simp
  · rw [if_neg hc]
    have : (x.isFiniteNonZero && decide (x.exponent = x.semantics.maxExponent)) = false := by
      simpa using hc
    rw [this]
    simp

theorem next_eq_nextExact (x : IEEEFloat) (nextDown : Bool)
    (h : 2 ≤ x.semantics.precision % 64) : x.next nextDown = some (x.nextExact nextDown) := by
  have key : ∀ y : IEEEFloat, y.semantics = x.semantics →
      y.isLargest = some y.isLargestFinite
      ∧ y.isSignificandAllZeros = some y.fractionAllZeros
      ∧ y.isSignificandAllOnes = some y.fractionAllOnes := by
    intro y hy
    exact ⟨isLargest_eq y (by rw [hy]; omega), isSignificandAllZeros_eq y (by rw [hy]; exact h),
      isSignificandAllOnes_eq y (by rw [hy]; omega)⟩
  unfold IEEEFloat.next IEEEFloat.nextExact
  generalize hx0 : (if nextDown = true then x.changeSign else x) = x0
  have hsem : x0.semantics = x.semantics := by
    subst hx0
    cases nextDown <;> simp [IEEEFloat.changeSign]
  obtain ⟨hL, hZ, hO⟩ := key x0 hsem
  simp only [hL, hZ, hO]
  cases x0.category with
  | fcInfinity => simp
  | fcNaN => simp
  | fcZero => simp
  | fcNormal =>
    simp only
    by_cases h1 : (x0.isSmallest && x0.sign) = true
    · simp [h1]
    · by_cases h2 : (x0.isLargestFinite && !x0.sign) = true
      · simp [h1, h2]
      · by_cases h3 : x0.sign = true
        · have h6 : x0.isSmallest = false := by simpa [h3] using h1
          by_cases h4 : x0.exponent = x0.semantics.minExponent
          · simp [h3, h4, h6]
          · by_cases h5 : x0.fractionAllZeros = true
            · simp [h3, h4, h5, h6]
            · simp [h3, h4, h5, h6]
        · have h6 : x0.isLargestFinite = false := by simpa [h3] using h2
          by_cases h4 : x0.isDenormal = true
          · simp [h3, h4, h6]
          · by_cases h5 : x0.fractionAllOnes = true
            · simp [h3, h4, h5, h6]
            · simp [h3, h4, h5, h6]

theorem Pred_FP_eq_next (sem : fltSemantics) (v : IEEEFloat) (s : Nat) (e : Int) (sg : Bool)
    (hp : 2 ≤ sem.precision) (hmin : sem.minExponent ≤ 0) (hmax : 0 ≤ sem.maxExponent)
    (h64 : 2 ≤ v.semantics.precision % 64)
    (hnext : v.nextExact true = { semantics := sem, significand := s, exponent := e,
                                  category := fltCategory.fcNormal, sign := sg })
    (hcan : IEEEFloat.canonical sem
        { semantics := sem, significand := s, exponent := e,
          category := fltCategory.fcNormal, sign := sg } = true) :
    Pred_FP sem v = some { semantics := sem, significand := s, exponent := e,
                           category := fltCategory.fcNormal, sign := sg } := by
  obtain ⟨h0, h2, he1, he2, hc⟩ := (canonical_normal_iff sem s e sg).1 hcan
  unfold Pred_FP
  simp only [next_eq_nextExact v true h64, hnext, ofIntegerPart_one sem hp hmin hmax, if_true]
  rw [multiply_one_canonical sem s e sg hp h0 h2 he1 he2 hc]



theorem Pred_FP_of_zero (sem : fltSemantics) (v : IEEEFloat)
    (hp : 2 ≤ sem.precision) (hmin : sem.minExponent ≤ 0) (hmax : 1 ≤ sem.maxExponent)
    (h64 : 2 ≤ sem.precision % 64)
    (hsem : v.semantics = sem) (hcat : v.category = fltCategory.fcZero) :
    ∃ r : IEEEFloat, Pred_FP sem v = some r ∧ r = v.nextExact true ∧ r.canonical sem = true
      ∧ isPredecessor sem v.toRat r.toRat := by
  have hone : 1 < 2 ^ sem.precision := by
    have : 2 ^ 0 < 2 ^ sem.precision := Nat.pow_lt_pow_right (by decide) (by omega)
    simpa using this
  have hcanr : IEEEFloat.canonical sem
      { semantics := sem, significand := 1, exponent := sem.minExponent,
        category := fltCategory.fcNormal, sign := true } = true :=
    (canonical_normal_iff sem 1 sem.minExponent true).2
      ⟨by decide, hone, le_rfl, by omega, Or.inr rfl⟩
  have hnext := next_down_zero v hcat
  rw [hsem] at hnext
  refine ⟨_, Pred_FP_eq_next sem v 1 sem.minExponent true hp hmin (by omega) (by rw [hsem]; exact h64)
      hnext hcanr,
    hnext.symm, hcanr, ?_⟩
  rw [toRat_of_zero v hcat]
  have h := isPredecessor_below sem 0 (sem.minExponent - (sem.precision : Int) + 1)
    (Or.inl rfl) (by
      have := representable_of_form sem 1 sem.minExponent hone le_rfl (by omega)
      simpa using this)
  simpa [IEEEFloat.toRat] using h

theorem Pred_FP_of_positive (sem : fltSemantics) (s : Nat) (e : Int)
    (hp : 2 ≤ sem.precision) (hmin : sem.minExponent ≤ 0) (hmax : 1 ≤ sem.maxExponent)
    (h64 : 2 ≤ sem.precision % 64)
    (hcan : IEEEFloat.canonical sem
        { semantics := sem, significand := s, exponent := e,
          category := fltCategory.fcNormal, sign := false } = true) :
    ∃ r : IEEEFloat,
      Pred_FP sem { semantics := sem, significand := s, exponent := e,
                    category := fltCategory.fcNormal, sign := false } = some r
      ∧ r = IEEEFloat.nextExact { semantics := sem, significand := s, exponent := e,
                                  category := fltCategory.fcNormal, sign := false } true
      ∧ r.canonical sem = true
      ∧ isPredecessor sem
          (IEEEFloat.toRat { semantics := sem, significand := s, exponent := e,
                             category := fltCategory.fcNormal, sign := false })
          r.toRat := by
  obtain ⟨h0, h2, he1, he2, hc⟩ := (canonical_normal_iff sem s e false).1 hcan
  have hp1 : 0 < sem.precision := by omega
  have hd := two_pow_pred_double sem.precision hp1
  have hhalf : 2 ≤ 2 ^ (sem.precision - 1) := by
    have : 2 ^ 1 ≤ 2 ^ (sem.precision - 1) := Nat.pow_le_pow_right (by decide) (by omega)
    simpa using this
  have hvval : IEEEFloat.toRat { semantics := sem, significand := s, exponent := e,
                                 category := fltCategory.fcNormal, sign := false }
      = (s : ℚ) * (2 : ℚ) ^ (e - (sem.precision : Int) + 1) := by
    simp [IEEEFloat.toRat]
  rw [hvval]
  by_cases hsm : s = 1 ∧ e = sem.minExponent
  · -- the smallest denormal: the predecessor is zero
    obtain ⟨hs1, he⟩ := hsm
    subst hs1
    subst he
    refine ⟨{ semantics := sem, significand := 0, exponent := 0,
              category := fltCategory.fcZero, sign := false }, ?_,
      (next_down_smallest sem hp1).symm, ?_, ?_⟩
    · have hne := next_eq_nextExact
        { semantics := sem, significand := 1, exponent := sem.minExponent,
          category := fltCategory.fcNormal, sign := false } true h64
      unfold Pred_FP
      simp only [hne, next_down_smallest sem hp1,
        ofIntegerPart_one sem hp hmin (by omega), if_true]
      simp [IEEEFloat.multiply, IEEEFloat.multiplySpecials, IEEEFloat.isFiniteNonZero]
    · simp [IEEEFloat.canonical]
    · have h := isPredecessor_above sem 0 (sem.minExponent - (sem.precision : Int) + 1)
        le_rfl (Or.inl rfl) (by positivity) (by omega)
      simpa [IEEEFloat.toRat] using h
  · have hnext := next_down_positive sem s e h2 hsm
    by_cases hcross : e ≠ sem.minExponent ∧ s % 2 ^ (sem.precision - 1) = 0
    · rw [if_pos hcross] at hnext
      have hsge : 2 ^ (sem.precision - 1) ≤ s := by
        rcases hc with h | h
        · exact h
        · exact absurd h hcross.1
      have hseq : s = 2 ^ (sem.precision - 1) := by
        have := mod_half_of_integer_bit s sem.precision hp1 hsge h2
        omega
      have hor : (s - 1) ||| 2 ^ (sem.precision - 1) = 2 ^ sem.precision - 1 := by
        rw [hseq, Nat.lor_comm]
        have := Nat.mul_add_lt_is_or (i := sem.precision - 1)
          (b := 2 ^ (sem.precision - 1) - 1) (by omega) 1
        rw [Nat.mul_one] at this
        rw [← this]
        omega
      rw [hor] at hnext
      have hcanr : IEEEFloat.canonical sem
          { semantics := sem, significand := 2 ^ sem.precision - 1, exponent := e - 1,
            category := fltCategory.fcNormal, sign := false } = true :=
        (canonical_normal_iff sem _ _ false).2
          ⟨by omega, by omega, by omega, by omega, Or.inl (by omega)⟩
      refine ⟨_, Pred_FP_eq_next sem _ _ _ false hp hmin (by omega) h64 hnext hcanr, hnext.symm,
        hcanr, ?_⟩
      have h := isPredecessor_above sem (2 ^ sem.precision - 1) (e - (sem.precision : Int))
        (by omega) (Or.inr (by omega)) (by omega) (by omega)
      have hv : (s : ℚ) * (2 : ℚ) ^ (e - (sem.precision : Int) + 1)
          = (((2 ^ sem.precision - 1 : Nat) : ℚ) + 1) * (2 : ℚ) ^ (e - (sem.precision : Int)) := by
        rw [hseq, zpow_add₀ (by norm_num : (2 : ℚ) ≠ 0)]
        have h1 : ((2 ^ sem.precision - 1 : Nat) : ℚ) + 1 = ((2 ^ sem.precision : Nat) : ℚ) := by
          have : 2 ^ sem.precision - 1 + 1 = 2 ^ sem.precision := by omega
          exact_mod_cast this
        rw [h1, hd]
        push_cast
        ring
      have hr : IEEEFloat.toRat { semantics := sem, significand := 2 ^ sem.precision - 1,
                                  exponent := e - 1, category := fltCategory.fcNormal,
                                  sign := false }
          = ((2 ^ sem.precision - 1 : Nat) : ℚ) * (2 : ℚ) ^ (e - (sem.precision : Int)) := by
        have : e - 1 - (sem.precision : Int) + 1 = e - (sem.precision : Int) := by ring
        simp [IEEEFloat.toRat, this]
      rw [hv, hr]
      exact h
    · rw [if_neg hcross] at hnext
      have hs2 : 2 ≤ s := by
        by_contra hlt
        have hs1 : s = 1 := by omega
        rcases hc with h | h
        · omega
        · exact hsm ⟨hs1, h⟩
      have hk : e - (sem.precision : Int) + 1 = sem.minExponent - (sem.precision : Int) + 1
          ∨ 2 ^ (sem.precision - 1) ≤ s - 1 := by
        by_cases he : e = sem.minExponent
        · left; rw [he]
        · right
          have hsge : 2 ^ (sem.precision - 1) ≤ s := by
            rcases hc with h | h
            · exact h
            · exact absurd h he
          have hmod := mod_half_of_integer_bit s sem.precision hp1 hsge h2
          have hne : s % 2 ^ (sem.precision - 1) ≠ 0 := fun h => hcross ⟨he, h⟩
          omega
      have hcanr : IEEEFloat.canonical sem
          { semantics := sem, significand := s - 1, exponent := e,
            category := fltCategory.fcNormal, sign := false } = true :=
        (canonical_normal_iff sem _ _ false).2
          ⟨by omega, by omega, he1, he2, by
            rcases hk with h | h
            · right; omega
            · left; exact h⟩
      refine ⟨_, Pred_FP_eq_next sem _ _ _ false hp hmin (by omega) h64 hnext hcanr, hnext.symm,
        hcanr, ?_⟩
      have h := isPredecessor_above sem (s - 1) (e - (sem.precision : Int) + 1)
        (by omega) hk (by omega) (by omega)
      have hv : (s : ℚ) = ((s - 1 : Nat) : ℚ) + 1 := by
        have : s - 1 + 1 = s := by omega
        exact_mod_cast this.symm
      have hr : IEEEFloat.toRat { semantics := sem, significand := s - 1, exponent := e,
                                  category := fltCategory.fcNormal, sign := false }
          = ((s - 1 : Nat) : ℚ) * (2 : ℚ) ^ (e - (sem.precision : Int) + 1) := by
        simp [IEEEFloat.toRat]
      rw [hv, hr]
      exact h



theorem Pred_FP_of_negative (sem : fltSemantics) (s : Nat) (e : Int)
    (hp : 2 ≤ sem.precision) (hmin : sem.minExponent ≤ 0) (hmax : 1 ≤ sem.maxExponent)
    (h64 : 2 ≤ sem.precision % 64)
    (hcan : IEEEFloat.canonical sem
        { semantics := sem, significand := s, exponent := e,
          category := fltCategory.fcNormal, sign := true } = true)
    (hnl : ¬ (e = sem.maxExponent ∧ s % 2 ^ (sem.precision - 1)
      = 2 ^ (sem.precision - 1) - 1)) :
    ∃ r : IEEEFloat,
      Pred_FP sem { semantics := sem, significand := s, exponent := e,
                    category := fltCategory.fcNormal, sign := true } = some r
      ∧ r = IEEEFloat.nextExact { semantics := sem, significand := s, exponent := e,
                                  category := fltCategory.fcNormal, sign := true } true
      ∧ r.canonical sem = true
      ∧ isPredecessor sem
          (IEEEFloat.toRat { semantics := sem, significand := s, exponent := e,
                             category := fltCategory.fcNormal, sign := true })
          r.toRat := by
  obtain ⟨h0, h2, he1, he2, hc⟩ := (canonical_normal_iff sem s e true).1 hcan
  have hp1 : 0 < sem.precision := by omega
  have hd := two_pow_pred_double sem.precision hp1
  have hhalf : 2 ≤ 2 ^ (sem.precision - 1) := by
    have : 2 ^ 1 ≤ 2 ^ (sem.precision - 1) := Nat.pow_le_pow_right (by decide) (by omega)
    simpa using this
  have hvval : IEEEFloat.toRat { semantics := sem, significand := s, exponent := e,
                                 category := fltCategory.fcNormal, sign := true }
      = -((s : ℚ) * (2 : ℚ) ^ (e - (sem.precision : Int) + 1)) := by
    simp [IEEEFloat.toRat]
  rw [hvval]
  have hk : e - (sem.precision : Int) + 1 = sem.minExponent - (sem.precision : Int) + 1
      ∨ 2 ^ (sem.precision - 1) ≤ s := by
    rcases hc with h | h
    · right; exact h
    · left; rw [h]
  have hnext := next_down_negative sem s e hp1 h2 hnl
  by_cases hcross : ¬ (e = sem.minExponent ∧ s < 2 ^ (sem.precision - 1))
      ∧ s % 2 ^ (sem.precision - 1) = 2 ^ (sem.precision - 1) - 1
  · rw [if_pos hcross] at hnext
    have hsge : 2 ^ (sem.precision - 1) ≤ s := by
      rcases hc with h | h
      · exact h
      · by_contra hlt
        exact hcross.1 ⟨h, by omega⟩
    have hseq : s = 2 ^ sem.precision - 1 := by
      have := mod_half_of_integer_bit s sem.precision hp1 hsge h2
      omega
    have hemax : e ≠ sem.maxExponent := fun h => hnl ⟨h, hcross.2⟩
    have hcanr : IEEEFloat.canonical sem
        { semantics := sem, significand := 2 ^ (sem.precision - 1), exponent := e + 1,
          category := fltCategory.fcNormal, sign := true } = true :=
      (canonical_normal_iff sem _ _ true).2
        ⟨by omega, by omega, by omega, by omega, Or.inl le_rfl⟩
    refine ⟨_, Pred_FP_eq_next sem _ _ _ true hp hmin (by omega) h64 hnext hcanr, hnext.symm,
        hcanr, ?_⟩
    have hr : IEEEFloat.toRat { semantics := sem, significand := 2 ^ (sem.precision - 1),
                                exponent := e + 1, category := fltCategory.fcNormal,
                                sign := true }
        = -(((s : ℚ) + 1) * (2 : ℚ) ^ (e - (sem.precision : Int) + 1)) := by
      have hz : e + 1 - (sem.precision : Int) + 1 = (e - (sem.precision : Int) + 1) + 1 := by
        ring
      have h1 : (s : ℚ) + 1 = ((2 ^ sem.precision : Nat) : ℚ) := by
        have : s + 1 = 2 ^ sem.precision := by omega
        exact_mod_cast this
      simp only [IEEEFloat.toRat, if_true]
      rw [hz, zpow_add₀ (by norm_num : (2 : ℚ) ≠ 0), h1, hd]
      push_cast
      ring
    rw [hr]
    apply isPredecessor_below sem s _ hk
    rw [← neg_neg (((s : ℚ) + 1) * (2 : ℚ) ^ (e - (sem.precision : Int) + 1)), ← hr]
    apply representable_neg
    have := representable_of_form sem (2 ^ (sem.precision - 1)) (e + 1) (by omega) (by omega)
      (by omega)
    simpa [IEEEFloat.toRat] using representable_neg sem _ this
  · rw [if_neg hcross] at hnext
    have hs1 : s + 1 < 2 ^ sem.precision := by
      by_contra hge
      have hseq : s = 2 ^ sem.precision - 1 := by omega
      have hsge : 2 ^ (sem.precision - 1) ≤ s := by omega
      have := mod_half_of_integer_bit s sem.precision hp1 hsge h2
      exact hcross ⟨fun h => by omega, by omega⟩
    have hcanr : IEEEFloat.canonical sem
        { semantics := sem, significand := s + 1, exponent := e,
          category := fltCategory.fcNormal, sign := true } = true :=
      (canonical_normal_iff sem _ _ true).2
        ⟨by omega, hs1, he1, he2, by
          rcases hc with h | h
          · left; omega
          · right; exact h⟩
    refine ⟨_, Pred_FP_eq_next sem _ _ _ true hp hmin (by omega) h64 hnext hcanr, hnext.symm,
        hcanr, ?_⟩
    have hr : IEEEFloat.toRat { semantics := sem, significand := s + 1, exponent := e,
                                category := fltCategory.fcNormal, sign := true }
        = -(((s : ℚ) + 1) * (2 : ℚ) ^ (e - (sem.precision : Int) + 1)) := by
      simp only [IEEEFloat.toRat, if_true]
      push_cast
      ring
    rw [hr]
    apply isPredecessor_below sem s _ hk
    have := representable_of_form sem (s + 1) e hs1 he1 he2
    simpa using this

theorem Pred_FP_of_most_negative (sem : fltSemantics) (s : Nat) (e : Int)
    (hp : 2 ≤ sem.precision) (hmin : sem.minExponent ≤ 0) (hmax : 1 ≤ sem.maxExponent)
    (h64 : 2 ≤ sem.precision % 64)
    (hl : e = sem.maxExponent ∧ s % 2 ^ (sem.precision - 1) = 2 ^ (sem.precision - 1) - 1) :
    Pred_FP sem { semantics := sem, significand := s, exponent := e,
                  category := fltCategory.fcNormal, sign := true }
      = some { semantics := sem, significand := 0, exponent := sem.maxExponent + 1,
               category := fltCategory.fcInfinity, sign := true } := by
  unfold Pred_FP
  simp only [ofIntegerPart_one sem hp hmin (by omega)]
  have hnext : IEEEFloat.nextExact
      { semantics := sem, significand := s, exponent := e,
        category := fltCategory.fcNormal, sign := true } true
      = { semantics := sem, significand := 0, exponent := sem.maxExponent + 1,
          category := fltCategory.fcInfinity, sign := true } := by
    unfold IEEEFloat.nextExact
    simp [IEEEFloat.changeSign, IEEEFloat.isSmallest, IEEEFloat.isLargestFinite,
      IEEEFloat.isFiniteNonZero, IEEEFloat.fractionAllOnes, hl.1, hl.2]
  have hne := next_eq_nextExact
    { semantics := sem, significand := s, exponent := e,
      category := fltCategory.fcNormal, sign := true } true h64
  rw [hne, hnext]
  simp [IEEEFloat.multiply, IEEEFloat.multiplySpecials, IEEEFloat.isFiniteNonZero]

theorem Pred_FP_spec (sem : fltSemantics) (v : IEEEFloat)
    (hvalid : sem.valid = true) (h64 : 2 ≤ sem.precision % 64) (hcan : v.canonical sem = true)
    (hnm : v.isMostNegative = false) :
    ∃ r : IEEEFloat, Pred_FP sem v = some r ∧ r = v.nextExact true ∧ r.canonical sem = true
      ∧ isPredecessor sem v.toRat r.toRat := by
  obtain ⟨hp, hmin, hmax⟩ := (valid_iff sem).1 hvalid
  obtain ⟨sem1, s, e, cat, sg⟩ := v
  have hsem : sem1 = sem := by
    simp only [IEEEFloat.canonical, Bool.and_eq_true, decide_eq_true_eq] at hcan
    exact hcan.1
  subst hsem
  cases cat with
  | fcInfinity => simp [IEEEFloat.canonical] at hcan
  | fcNaN => simp [IEEEFloat.canonical] at hcan
  | fcZero => exact Pred_FP_of_zero sem1 _ hp hmin hmax h64 rfl rfl
  | fcNormal =>
    cases sg with
    | false => exact Pred_FP_of_positive sem1 s e hp hmin hmax h64 hcan
    | true =>
      apply Pred_FP_of_negative sem1 s e hp hmin hmax h64 hcan
      intro hl
      simp [IEEEFloat.isMostNegative, IEEEFloat.isLargestFinite, IEEEFloat.isFiniteNonZero,
        IEEEFloat.fractionAllOnes, hl.1, hl.2] at hnm


theorem canonical_isFinite (sem : fltSemantics) (x : IEEEFloat) (h : x.canonical sem = true) :
    x.isFinite = true := by
  obtain ⟨sem1, s, e, cat, sg⟩ := x
  cases cat <;> simp [IEEEFloat.canonical, IEEEFloat.isFinite] at h ⊢

theorem Pred_FP_twice (sem : fltSemantics) (r : IEEEFloat)
    (hvalid : sem.valid = true) (h64 : 2 ≤ sem.precision % 64) (hcan : r.canonical sem = true) :
    ∃ r2 : IEEEFloat, Pred_FP sem r = some r2 ∧ r2.lessThan r := by
  obtain ⟨hp, hmin, hmax⟩ := (valid_iff sem).1 hvalid
  by_cases hm : r.isMostNegative = true
  · obtain ⟨sem1, s, e, cat, sg⟩ := r
    have hsem : sem1 = sem := by
      simp only [IEEEFloat.canonical, Bool.and_eq_true, decide_eq_true_eq] at hcan
      exact hcan.1
    subst hsem
    simp only [IEEEFloat.isMostNegative, IEEEFloat.isLargestFinite, IEEEFloat.isFiniteNonZero,
      IEEEFloat.fractionAllOnes, Bool.and_eq_true, decide_eq_true_eq] at hm
    obtain ⟨⟨⟨hcat, he⟩, hones⟩, hsg⟩ := hm
    subst hcat
    subst hsg
    refine ⟨_, Pred_FP_of_most_negative sem1 s e hp hmin hmax h64 ⟨he, hones⟩, ?_⟩
    left
    simp
  · have hm2 : r.isMostNegative = false := by simpa using hm
    obtain ⟨r2, h1, _, h3, h4⟩ := Pred_FP_spec sem r hvalid h64 hcan hm2
    exact ⟨r2, h1, Or.inr (Or.inr ⟨canonical_isFinite sem r2 h3,
      canonical_isFinite sem r hcan, h4.2.1⟩)⟩

theorem Pred_FP_greatest_below (sem : fltSemantics) (v : IEEEFloat)
    (hvalid : sem.valid = true) (h64 : 2 ≤ sem.precision % 64)
    (hcan : v.canonical sem = true) (hnm : v.isMostNegative = false) :
    ∃ r r2 : IEEEFloat,
      Pred_FP sem v = some r
      ∧ v.next true = some r
      ∧ r.canonical sem = true
      ∧ isPredecessor sem v.toRat r.toRat
      ∧ Pred_FP sem r = some r2
      ∧ r2.lessThan r := by
  obtain ⟨r, h1, h2, h3, h4⟩ := Pred_FP_spec sem v hvalid h64 hcan hnm
  obtain ⟨r2, h5, h6⟩ := Pred_FP_twice sem r hvalid h64 h3
  have hsem : v.semantics = sem := by
    simp only [IEEEFloat.canonical, Bool.and_eq_true, decide_eq_true_eq] at hcan
    exact hcan.1
  refine ⟨r, r2, h1, ?_, h3, h4, h5, h6⟩
  rw [next_eq_nextExact v true (by rw [hsem]; exact h64), h2]

theorem Pred_FP_greatest_below_double :
    ∃ r r2 : IEEEFloat,
      Pred_FP semIEEEdouble
          { semantics := semIEEEdouble, significand := 4503599627370496, exponent := 0,
            category := fltCategory.fcNormal, sign := false } = some r
      ∧ r = { semantics := semIEEEdouble, significand := 9007199254740991, exponent := -1,
              category := fltCategory.fcNormal, sign := false }
      ∧ isPredecessor semIEEEdouble
          (IEEEFloat.toRat
            { semantics := semIEEEdouble, significand := 4503599627370496, exponent := 0,
              category := fltCategory.fcNormal, sign := false })
          r.toRat
      ∧ Pred_FP semIEEEdouble r = some r2
      ∧ r2.lessThan r := by
  obtain ⟨r, r2, h1, _, _, h4, h5, h6⟩ := Pred_FP_greatest_below semIEEEdouble
    { semantics := semIEEEdouble, significand := 4503599627370496, exponent := 0,
      category := fltCategory.fcNormal, sign := false } (by decide) (by decide) (by decide)
    (by decide)
  have hr : Pred_FP semIEEEdouble
      { semantics := semIEEEdouble, significand := 4503599627370496, exponent := 0,
        category := fltCategory.fcNormal, sign := false }
      = some { semantics := semIEEEdouble, significand := 9007199254740991, exponent := -1,
               category := fltCategory.fcNormal, sign := false } := by decide
  have hrr : r = { semantics := semIEEEdouble, significand := 9007199254740991, exponent := -1,
                   category := fltCategory.fcNormal, sign := false } := by
    rw [h1] at hr
    exact Option.some.inj hr
  exact ⟨r, r2, h1, hrr, h4, h5, h6⟩

/-- C3: on the 80-bit extended format (precision 64, one full significand word)
and the input 1.0, a finite value of the format in normalised representation that
is not the most negative one, the `next` step of `Pred_FP` only decrements the
significand and returns the unnormalised `(2^63 - 1) * 2^-63`; the multiplication
by one normalises that representation without changing its value, and `Pred_FP`
returns `(2^64 - 2) * 2^-64`.  That result is below 1.0 but it is not the greatest
value of the format below 1.0: `(2^64 - 1) * 2^-64` lies strictly between. -/
theorem pred_fp_extended_one_not_greatest_below :
    IEEEFloat.canonical semX87DoubleExtended
        { semantics := semX87DoubleExtended, significand := 9223372036854775808, exponent := 0,
          category := fltCategory.fcNormal, sign := false } = true
    ∧ IEEEFloat.isMostNegative
        { semantics := semX87DoubleExtended, significand := 9223372036854775808, exponent := 0,
          category := fltCategory.fcNormal, sign := false } = false
    ∧ IEEEFloat.next
        { semantics := semX87DoubleExtended, significand := 9223372036854775808, exponent := 0,
          category := fltCategory.fcNormal, sign := false } true
        = some { semantics := semX87DoubleExtended, significand := 9223372036854775807,
                 exponent := 0, category := fltCategory.fcNormal, sign := false }
    ∧ IEEEFloat.canonical semX87DoubleExtended
        { semantics := semX87DoubleExtended, significand := 9223372036854775807,
          exponent := 0, category := fltCategory.fcNormal, sign := false } = false
    ∧ Pred_FP semX87DoubleExtended
        { semantics := semX87DoubleExtended, significand := 9223372036854775808, exponent := 0,
          category := fltCategory.fcNormal, sign := false }
        = some { semantics := semX87DoubleExtended, significand := 18446744073709551614,
                 exponent := -1, category := fltCategory.fcNormal, sign := false }
    ∧ IEEEFloat.canonical semX87DoubleExtended
        { semantics := semX87DoubleExtended, significand := 18446744073709551614,
          exponent := -1, category := fltCategory.fcNormal, sign := false } = true
    ∧ IEEEFloat.toRat
        { semantics := semX87DoubleExtended, significand := 18446744073709551614,
          exponent := -1, category := fltCategory.fcNormal, sign := false }
        = IEEEFloat.toRat
            { semantics := semX87DoubleExtended, significand := 9223372036854775807,
              exponent := 0, category := fltCategory.fcNormal, sign := false }
    ∧ IEEEFloat.toRat
        { semantics := semX87DoubleExtended, significand := 18446744073709551614,
          exponent := -1, category := fltCategory.fcNormal, sign := false }
        < IEEEFloat.toRat
            { semantics := semX87DoubleExtended, significand := 9223372036854775808,
              exponent := 0, category := fltCategory.fcNormal, sign := false }
    ∧ semX87DoubleExtended.representable ((18446744073709551615 : ℚ) / 18446744073709551616)
    ∧ IEEEFloat.toRat
        { semantics := semX87DoubleExtended, significand := 18446744073709551614,
          exponent := -1, category := fltCategory.fcNormal, sign := false }
        < (18446744073709551615 : ℚ) / 18446744073709551616
    ∧ (18446744073709551615 : ℚ) / 18446744073709551616
        < IEEEFloat.toRat
            { semantics := semX87DoubleExtended, significand := 9223372036854775808,
              exponent := 0, category := fltCategory.fcNormal, sign := false }
    ∧ ¬ isPredecessor semX87DoubleExtended
        (IEEEFloat.toRat
          { semantics := semX87DoubleExtended, significand := 9223372036854775808,
            exponent := 0, category := fltCategory.fcNormal, sign := false })
        (IEEEFloat.toRat
          { semantics := semX87DoubleExtended, significand := 18446744073709551614,
            exponent := -1, category := fltCategory.fcNormal, sign := false }) := by
  have hv : IEEEFloat.toRat
      { semantics := semX87DoubleExtended, significand := 9223372036854775808,
        exponent := 0, category := fltCategory.fcNormal, sign := false } = 1 := by
    simp only [IEEEFloat.toRat, semX87DoubleExtended]
    norm_num
  have hn : IEEEFloat.toRat
      { semantics := semX87DoubleExtended, significand := 9223372036854775807,
        exponent := 0, category := fltCategory.fcNormal, sign := false }
      = (18446744073709551614 : ℚ) / 18446744073709551616 := by
    simp only [IEEEFloat.toRat, semX87DoubleExtended]
    norm_num
  have hr : IEEEFloat.toRat
      { semantics := semX87DoubleExtended, significand := 18446744073709551614,
        exponent := -1, category := fltCategory.fcNormal, sign := false }
      = (18446744073709551614 : ℚ) / 18446744073709551616 := by
    simp only [IEEEFloat.toRat, semX87DoubleExtended]
    norm_num
  have hw : semX87DoubleExtended.representable
      ((18446744073709551615 : ℚ) / 18446744073709551616) := by
    refine ⟨18446744073709551615, -1, by decide, by decide, by decide, ?_⟩
    simp only [semX87DoubleExtended]
    norm_num [abs_of_pos]
  refine ⟨by decide, by decide, by decide, by decide, by decide, by decide, ?_, ?_, hw, ?_, ?_,
    ?_⟩
  · rw [hr, hn]
  · rw [hr, hv]; norm_num
  · rw [hr]; norm_num
  · rw [hv]; norm_num
  · rw [hr, hv]
    intro h
    have h1 := h.2.2 _ hw (by norm_num)
    norm_num at h1

end LLVMWrapper
